import Mathlib

/-! Verification of the `adapter` package.

A shallow embedding of the Go package `adapter` (GVR resolution and cache,
object converter, resource adapter, schema reader and field validator) and
theorems about it.

Conventions of the embedding.

* A Go map is an association list read through `GoMap.get` (first binding of a
  key wins), written through `GoMap.set` and iterated through `GoMap.keys` /
  `GoMap.range`, which visit every bound key once.  Go leaves the iteration
  order unspecified; the theorems below never depend on it.  A nil map and an
  empty map are both the empty list where the code only reads the map (reads,
  `len` and `range` do not tell them apart); where the code writes to a map that
  may be nil (`Cache.items`, `openAPISchemaCache`) the map is an `Option` and
  `none` is the nil map.
* A value of Go type `interface{}` is a `Value`; the constructor records the
  dynamic type, because the type assertions of the code and of the
  `unstructured` helpers depend on it.
* A Go function that may panic returns a `Result`.
-/

namespace Adapter

/-! ## Go maps -/

namespace GoMap

variable {κ α : Type} [DecidableEq κ]

/-- Comma-ok index `v, ok := m[k]`: `some v` when `k` is bound, `none` otherwise. -/
def get : List (κ × α) → κ → Option α
  | [], _ => none
  | (k', v) :: rest, k => if k' = k then some v else get rest k

/-- Assignment `m[k] = v`. -/
def set (m : List (κ × α)) (k : κ) (v : α) : List (κ × α) :=
  (k, v) :: m.filter (fun e => !decide (e.1 = k))

/-- The keys bound in the map, each once: what `for k := range m` visits. -/
def keys (m : List (κ × α)) : List κ :=
  (m.map Prod.fst).dedup

/-- The bindings of the map, one per key: what `for k, v := range m` visits. -/
def range (m : List (κ × α)) : List (κ × α) :=
  (keys m).filterMap (fun k => (get m k).map (fun v => (k, v)))

end GoMap

/-! ## Group-versions and discovery -/

/-- Go `schema.GroupVersion`. -/
structure GroupVersion where
  Group : String
  Version : String
  deriving DecidableEq, Repr

/-- Go `schema.GroupVersionResource`. -/
structure GroupVersionResource where
  Group : String
  Version : String
  Resource : String
  deriving DecidableEq, Repr

/-- The zero value `schema.GroupVersionResource{}`. -/
def GroupVersionResource.zero : GroupVersionResource := ⟨"", "", ""⟩

/-- The fields of `metav1.APIResource` the package reads. -/
structure APIResource where
  Name : String
  Kind : String
  deriving DecidableEq, Repr

/-- The fields of `metav1.APIResourceList` the package reads. -/
structure APIResourceList where
  GroupVersion : String
  APIResources : List APIResource
  deriving DecidableEq, Repr

/-- What `disco.ServerPreferredResources()` answers: the resource lists and the
error (`none` for a nil error). -/
structure DiscoveryResult where
  resourceLists : List APIResourceList
  err : Option String
  deriving DecidableEq, Repr

/-- Library function `schema.ParseGroupVersion` (k8s.io/apimachinery), which the
package calls: the empty string and "/" give the zero group-version, a string
without a slash is a version of the core group, a string with one slash splits
at it, and a string with more slashes is an error (`none`; the callers only
test the error against nil). -/
def ParseGroupVersion (gv : String) : Option GroupVersion :=
  if gv.data = [] ∨ gv.data = ['/'] then some ⟨"", ""⟩
  else
    match gv.data.count '/' with
    | 0 => some ⟨"", gv⟩
    | 1 => some ⟨String.mk (gv.data.takeWhile (fun c => c != '/')),
                 String.mk ((gv.data.dropWhile (fun c => c != '/')).drop 1)⟩
    | _ => none

/-- The table `targets` local to `selectGVR`. -/
def targets : List (String × List GroupVersion) :=
  [ ("Deployment", [⟨"apps", "v1"⟩, ⟨"apps", "v1beta2"⟩, ⟨"extensions", "v1beta1"⟩]),
    ("StatefulSet", [⟨"apps", "v1"⟩]),
    ("DaemonSet", [⟨"apps", "v1"⟩]),
    ("Job", [⟨"batch", "v1"⟩]),
    ("CronJob", [⟨"batch", "v1"⟩]) ]

/-- The value of `targets[kind]`: the nil slice for a kind that is not a key. -/
def candidates (kind : String) : List GroupVersion :=
  (GoMap.get targets kind).getD []

/-- The inner loop of `selectGVR` over one resource list:
`if r.Kind == kind { possible[gv] = r.Name }`. -/
def selectInner (kind : String) (gv : GroupVersion)
    (possible : List (GroupVersion × String)) (rs : List APIResource) :
    List (GroupVersion × String) :=
  rs.foldl (fun p r => if r.Kind = kind then GoMap.set p gv r.Name else p) possible

/-- The loop of `selectGVR` that fills `possible`; a resource list whose
group-version does not parse is skipped (`continue`). -/
def selectPossible (kind : String) (resourceLists : List APIResourceList) :
    List (GroupVersion × String) :=
  resourceLists.foldl
    (fun p rl =>
      match ParseGroupVersion rl.GroupVersion with
      | none => p
      | some gv => selectInner kind gv p rl.APIResources)
    []

/-- The candidate walk `for _, gv := range gvs { if res, ok := possible[gv]; ok {...} }`
shared by `selectGVR` (which returns at the first hit) and `Cache.Refresh`
(which stores the first hit and breaks). -/
def firstServed (possible : List (GroupVersion × String)) :
    List GroupVersion → Option GroupVersionResource
  | [] => none
  | gv :: rest =>
    match GoMap.get possible gv with
    | some res => some ⟨gv.Group, gv.Version, res⟩
    | none => firstServed possible rest

/-- Go `selectGVR(disco, kind)`: the pair (GVR, error) it returns. -/
def selectGVR (disco : DiscoveryResult) (kind : String) :
    GroupVersionResource × Option String :=
  match disco.err with
  | some e => (GroupVersionResource.zero, some e)
  | none =>
    match firstServed (selectPossible kind disco.resourceLists) (candidates kind) with
    | some gvr => (gvr, none)
    | none => (GroupVersionResource.zero, some ("no supported " ++ kind ++ " version found"))

/-- Discovery serves `kind` at `gv`: some resource list whose group-version
parses to `gv` has a resource whose declared kind is `kind`. -/
def Served (resourceLists : List APIResourceList) (kind : String) (gv : GroupVersion) : Prop :=
  ∃ rl ∈ resourceLists, ParseGroupVersion rl.GroupVersion = some gv ∧
    ∃ r ∈ rl.APIResources, r.Kind = kind

/-- Discovery lists a resource called `name` of kind `kind` at `gv`. -/
def ServedAs (resourceLists : List APIResourceList) (kind : String) (gv : GroupVersion)
    (name : String) : Prop :=
  ∃ rl ∈ resourceLists, ParseGroupVersion rl.GroupVersion = some gv ∧
    ∃ r ∈ rl.APIResources, r.Kind = kind ∧ r.Name = name

/-! ## Outcomes -/

/-- What a call that may panic comes to: a value, a returned error, or a panic. -/
inductive Result (α : Type) where
  | ok (val : α)
  | error (msg : String)
  | panicked
  deriving DecidableEq, Repr

/-- Sequencing of calls: the second runs on the value of the first, and an error
or a panic of the first is the outcome. -/
def Result.bind {α β : Type} (r : Result α) (f : α → Result β) : Result β :=
  match r with
  | .ok a => f a
  | .error e => .error e
  | .panicked => .panicked

/-! ## Kind registry and GVR cache -/

/-- The initial value of the package variable `knownKindGVRs`. -/
def knownKindGVRs : List (String × List GroupVersion) :=
  [ ("Deployment", [⟨"apps", "v1"⟩, ⟨"apps", "v1beta2"⟩, ⟨"extensions", "v1beta1"⟩]),
    ("StatefulSet", [⟨"apps", "v1"⟩]),
    ("DaemonSet", [⟨"apps", "v1"⟩]),
    ("Job", [⟨"batch", "v1"⟩]),
    ("CronJob", [⟨"batch", "v1"⟩]) ]

/-- Go `RegisterKind(kind, gvs)`: `knownKindGVRs[kind] = gvs`, as a function of the
registry before the call. -/
def RegisterKind (registry : List (String × List GroupVersion)) (kind : String)
    (gvs : List GroupVersion) : List (String × List GroupVersion) :=
  GoMap.set registry kind gvs

/-- Go `Cache` without its lock.  `items` is `none` for the nil map of the zero-value
`Cache`: reading a nil map finds nothing, writing to it panics. -/
structure Cache where
  items : Option (List (String × GroupVersionResource))
  loaded : Bool
  deriving DecidableEq, Repr

/-- Go `(*Cache).Get`: `gvr, ok := c.items[kind]`. -/
def Cache.Get (c : Cache) (kind : String) : GroupVersionResource × Bool :=
  match c.items with
  | none => (GroupVersionResource.zero, false)
  | some m =>
    match GoMap.get m kind with
    | some gvr => (gvr, true)
    | none => (GroupVersionResource.zero, false)

/-- Go `(*Cache).Set`: `c.items[kind] = gvr`, the cache after the call; the
assignment panics when `items` is the nil map. -/
def Cache.Set (c : Cache) (kind : String) (gvr : GroupVersionResource) : Result Cache :=
  match c.items with
  | none => .panicked
  | some m => .ok { c with items := some (GoMap.set m kind gvr) }

/-- The value `gv` of `gv, _ := schema.ParseGroupVersion(s)`: the zero
group-version when parsing fails. -/
def parseOrZero (s : String) : GroupVersion :=
  (ParseGroupVersion s).getD ⟨"", ""⟩

/-- The loop of `Cache.Refresh` that fills `possible`: every resource of every
list is entered, `possible[gv] = r.Name`. -/
def refreshPossible (resourceLists : List APIResourceList) : List (GroupVersion × String) :=
  resourceLists.foldl
    (fun p rl => rl.APIResources.foldl (fun q r => GoMap.set q (parseOrZero rl.GroupVersion) r.Name) p)
    []

/-- The loop of `Cache.Refresh` over the bindings of `knownKinds` still to visit:
the first candidate of each kind found in `possible` is stored, a kind without
one is left alone; the store `c.items[kind] = ...` panics when `items` is the nil
map. -/
def refreshItems (possible : List (GroupVersion × String)) :
    Option (List (String × GroupVersionResource)) → List (String × List GroupVersion) →
      Result (Option (List (String × GroupVersionResource)))
  | items, [] => .ok items
  | items, e :: rest =>
    match firstServed possible e.2 with
    | some gvr =>
      match items with
      | some m => refreshItems possible (some (GoMap.set m e.1 gvr)) rest
      | none => .panicked
    | none => refreshItems possible items rest

/-- Go `(*Cache).Refresh(disco, knownKinds)`: the cache after the call and the
outcome (`ok` for a nil error, `error` for the discovery error, `panicked` when a
store into the nil map panics, before `loaded` is set). -/
def Cache.Refresh (c : Cache) (disco : DiscoveryResult)
    (knownKinds : List (String × List GroupVersion)) : Cache × Result Unit :=
  match disco.err with
  | some e => (c, .error e)
  | none =>
    match refreshItems (refreshPossible disco.resourceLists) c.items (GoMap.range knownKinds) with
    | .ok items => ({ items := items, loaded := true }, .ok ())
    | .error e => (c, .error e)
    | .panicked => (c, .panicked)

/-! ## Generic values -/

/-- A value of Go type `interface{}` as it occurs in an unstructured object,
tagged with its dynamic type. -/
inductive Value where
  | null
  | str (s : String)
  | int64 (n : Int)
  | int32 (n : Int)
  | float64 (bits : Nat)
  | bool (b : Bool)
  | strMap (m : List (String × String))
  | map (m : List (String × Value))
  | slice (l : List Value)

/-- Single-value index `m[k]` on a `map[string]interface{}`: nil for an unbound key. -/
def index (m : List (String × Value)) (k : String) : Value :=
  (GoMap.get m k).getD Value.null

mutual
/-- Library function `runtime.DeepCopyJSONValue` (k8s.io/apimachinery): copies
maps and slices of `interface{}` recursively, returns strings, int64, bool,
float64 and nil as they are, and panics ("cannot deep copy") on every other
dynamic type. -/
def DeepCopyJSONValue : Value → Result Value
  | .map m =>
    match copyFields m with
    | .ok c => .ok (.map c)
    | .error e => .error e
    | .panicked => .panicked
  | .slice l =>
    match copyItems l with
    | .ok c => .ok (.slice c)
    | .error e => .error e
    | .panicked => .panicked
  | .str s => .ok (.str s)
  | .int64 n => .ok (.int64 n)
  | .bool b => .ok (.bool b)
  | .float64 f => .ok (.float64 f)
  | .null => .ok .null
  | .int32 _ => .panicked
  | .strMap _ => .panicked
/-- The loop of `DeepCopyJSONValue` over the entries of a map. -/
def copyFields : List (String × Value) → Result (List (String × Value))
  | [] => .ok []
  | (k, v) :: rest =>
    match DeepCopyJSONValue v, copyFields rest with
    | .ok c, .ok cs => .ok ((k, c) :: cs)
    | _, _ => .panicked
/-- The loop of `DeepCopyJSONValue` over the items of a slice. -/
def copyItems : List Value → Result (List Value)
  | [] => .ok []
  | v :: rest =>
    match DeepCopyJSONValue v, copyItems rest with
    | .ok c, .ok cs => .ok (c :: cs)
    | _, _ => .panicked
end

/-- Library function `unstructured.NestedFieldNoCopy`: walks `fields` down from
`val`; `none` when a field is unbound, when the walk meets nil, or when it meets
a value that is not a `map[string]interface{}` (the helper then returns its zero
value with found = false, and the callers discard the found flag and the error). -/
def NestedFieldNoCopy : Value → List String → Option Value
  | val, [] => some val
  | .map m, field :: rest =>
    match GoMap.get m field with
    | some v => NestedFieldNoCopy v rest
    | none => none
  | _, _ :: _ => none

/-- Library function `unstructured.NestedString`, first result: the string at the
path, "" when missing or not a string. -/
def NestedString (obj : List (String × Value)) (fields : List String) : String :=
  match NestedFieldNoCopy (.map obj) fields with
  | some (.str s) => s
  | _ => ""

/-- Library function `unstructured.NestedInt64`, first result: the int64 at the
path, 0 when missing or of another dynamic type. -/
def NestedInt64 (obj : List (String × Value)) (fields : List String) : Int :=
  match NestedFieldNoCopy (.map obj) fields with
  | some (.int64 n) => n
  | _ => 0

/-- Library function `unstructured.nestedMapNoCopy`: the `map[string]interface{}`
at the path. -/
def nestedMapNoCopy (obj : List (String × Value)) (fields : List String) :
    Option (List (String × Value)) :=
  match NestedFieldNoCopy (.map obj) fields with
  | some (.map m) => some m
  | _ => none

/-- The loop of `NestedStringMap` and of `NestedStringSlice`: every value must be
a string. -/
def allStrings : List Value → Option (List String)
  | [] => some []
  | .str s :: rest => (allStrings rest).map (fun ss => s :: ss)
  | _ :: _ => none

/-- Library function `unstructured.NestedStringMap`, first result: the map at the
path as a `map[string]string`, nil when missing, not a map, or holding a value
that is not a string. -/
def NestedStringMap (obj : List (String × Value)) (fields : List String) :
    List (String × String) :=
  match nestedMapNoCopy obj fields with
  | some m =>
    match allStrings ((GoMap.range m).map Prod.snd) with
    | some ss => ((GoMap.range m).map Prod.fst).zip ss
    | none => []
  | none => []

/-- Library function `unstructured.NestedMap`, first result: a deep copy of the
map at the path, nil when missing or not a map; panics when the copy does. -/
def NestedMap (obj : List (String × Value)) (fields : List String) :
    Result (List (String × Value)) :=
  match nestedMapNoCopy obj fields with
  | some m =>
    match DeepCopyJSONValue (.map m) with
    | .ok (.map c) => .ok c
    | .ok _ => .ok []
    | .error e => .error e
    | .panicked => .panicked
  | none => .ok []

/-- Library function `unstructured.NestedSlice`, first result: a deep copy of the
`[]interface{}` at the path, nil when missing or not such a slice; panics when
the copy does. -/
def NestedSlice (obj : List (String × Value)) (fields : List String) : Result (List Value) :=
  match NestedFieldNoCopy (.map obj) fields with
  | some (.slice l) =>
    match DeepCopyJSONValue (.slice l) with
    | .ok (.slice c) => .ok c
    | .ok _ => .ok []
    | .error e => .error e
    | .panicked => .panicked
  | _ => .ok []

/-- Library function `unstructured.NestedStringSlice`, first result: the
`[]interface{}` at the path as a `[]string`, nil when missing, not such a slice,
or holding an item that is not a string. -/
def NestedStringSlice (obj : List (String × Value)) (fields : List String) : List String :=
  match NestedFieldNoCopy (.map obj) fields with
  | some (.slice l) => (allStrings l).getD []
  | _ => []

/-! ## Object converter -/

/-- Go `CompatibleEngine`.  `Replicas` is an `int32`. -/
structure CompatibleEngine where
  Name : String
  Labels : List (String × String)
  Replicas : Int
  Image : String
  APIVersions : List String
  Kind : String
  Spec : List (String × Value)
  Status : List (String × Value)
  Metadata : List (String × Value)
  SpecPatch : List (String × Value)

/-- The loop `for k, v := range c.SpecPatch { base["spec"].(map[string]interface{})[k] = v }`
over the bindings still to visit; the type assertion has no comma-ok form, so it
panics (`none`) when `base["spec"]` is not a `map[string]interface{}`. -/
def applySpecPatch (base : List (String × Value)) :
    List (String × Value) → Option (List (String × Value))
  | [] => some base
  | (k, v) :: rest =>
    match GoMap.get base "spec" with
    | some (.map spec) => applySpecPatch (GoMap.set base "spec" (.map (GoMap.set spec k v))) rest
    | _ => none

/-- The map `containerSpec` of `toUnstructured`. -/
def containerSpec (c : CompatibleEngine) : Value :=
  .map [("containers", .slice [.map [("name", .str "main"), ("image", .str c.Image)]])]

/-- The pod template both controller families and jobs embed. -/
def podTemplate (c : CompatibleEngine) : Value :=
  .map [("metadata", .map [("labels", .strMap c.Labels)]), ("spec", containerSpec c)]

/-- Go `toUnstructured(gv, c)`: the `Object` of the result.  The returned error is
always nil; the call panics when the SpecPatch loop does. -/
def toUnstructured (gv : GroupVersion) (c : CompatibleEngine) : Result (List (String × Value)) :=
  let base : List (String × Value) :=
    [ ("apiVersion", .str (gv.Group ++ "/" ++ gv.Version)),
      ("kind", .str c.Kind),
      ("metadata", .map [("name", .str c.Name), ("labels", .strMap c.Labels)]) ]
  match applySpecPatch base (GoMap.range c.SpecPatch) with
  | none => .panicked
  | some base =>
    if c.Kind = "Deployment" ∨ c.Kind = "StatefulSet" ∨ c.Kind = "DaemonSet" then
      .ok (GoMap.set base "spec" (.map
        [ ("replicas", .int32 c.Replicas),
          ("selector", .map [("matchLabels", .strMap c.Labels)]),
          ("template", podTemplate c) ]))
    else if c.Kind = "Job" then
      .ok (GoMap.set base "spec" (.map
        [ ("template", podTemplate c),
          ("backoffLimit", .int32 4) ]))
    else if c.Kind = "CronJob" then
      .ok (GoMap.set base "spec" (.map
        [ ("schedule", .str "*/1 * * * *"),
          ("jobTemplate", .map [("spec", .map [("template", podTemplate c)])]) ]))
    else .ok base

/-- Go conversion `int32(n)` of an int64: the value modulo 2^32, in the signed range. -/
def toInt32 (n : Int) : Int :=
  (n + 2 ^ 31) % 2 ^ 32 - 2 ^ 31

/-- The image lookup of `fromUnstructured`: the `image` string of the first
container when it is a map holding one, "" otherwise. -/
def firstImage : List Value → String
  | .map cMap :: _ =>
    match GoMap.get cMap "image" with
    | some (.str img) => img
    | _ => ""
  | _ => ""

/-- Go `fromUnstructured(gv, kind, u)` on the `Object` of `u`.  The returned error
is always nil; the call panics when one of the deep-copying helpers does. -/
def fromUnstructured (_gv : GroupVersion) (kind : String) (u : List (String × Value)) :
    Result CompatibleEngine :=
  let name := NestedString u ["metadata", "name"]
  let labels := NestedStringMap u ["metadata", "labels"]
  let replicas := NestedInt64 u ["spec", "replicas"]
  match NestedMap u ["spec"], NestedMap u ["status"],
    NestedSlice u ["metadata", "ownerReferences"],
    NestedSlice u ["spec", "template", "spec", "containers"] with
  | .ok spec, .ok status, .ok ownerRefs, .ok cList =>
    let annotations := NestedStringMap u ["metadata", "annotations"]
    let createdAt := NestedString u ["metadata", "creationTimestamp"]
    let apiVersions := NestedStringSlice u ["apiVersion"]
    .ok {
      Name := name
      Labels := labels
      Replicas := toInt32 replicas
      Image := firstImage cList
      Kind := kind
      APIVersions := apiVersions
      Spec := spec
      Status := status
      Metadata :=
        [ ("annotations", .strMap annotations),
          ("ownerReferences", .slice ownerRefs),
          ("creationTimestamp", .str createdAt) ]
      SpecPatch := [] }
  | _, _, _, _ => .panicked


/-! ## Field validator and schema reader -/

/-- The fields of a `field.Error` of the validation library: the error type, the
path, the offending value and the detail message. -/
structure FieldError where
  ErrorType : String
  Field : String
  BadValue : String
  Detail : String
  deriving DecidableEq, Repr

/-- The error `field.Invalid(field.NewPath("spec").Key(k), k, "not allowed by OpenAPI schema")`
that `ValidateSpecFields` appends for the key `k`. -/
def invalidField (k : String) : FieldError :=
  { ErrorType := "FieldValueInvalid", Field := "spec[" ++ k ++ "]", BadValue := k,
    Detail := "not allowed by OpenAPI schema" }

/-- The loop of library method `field.ErrorList.ToAggregate`: an error whose
message was already seen is skipped.  The message renders the path, the value and
the detail, so errors are compared as such. -/
def dropSeen (seen : List FieldError) : List FieldError → List FieldError
  | [] => []
  | e :: rest => if e ∈ seen then dropSeen seen rest else e :: dropSeen (e :: seen) rest

/-- Library method `field.ErrorList.ToAggregate`: nil (`none`) for an empty list,
otherwise the aggregate of its errors without repeated messages. -/
def ToAggregate (list : List FieldError) : Option (List FieldError) :=
  if list.length = 0 then none else some (dropSeen [] list)

/-- The set `validSet` that `ValidateSpecFields` builds from `validFields`. -/
def validSetOf (validFields : List String) : List (String × Unit) :=
  validFields.foldl (fun s f => GoMap.set s f ()) []

/-- The loop of `ValidateSpecFields` over the keys of `spec`, from the errors
collected so far. -/
def collectInvalid (validSet : List (String × Unit)) (errs : List FieldError)
    (ks : List String) : List FieldError :=
  ks.foldl (fun es k => if (GoMap.get validSet k).isSome then es else es ++ [invalidField k]) errs

/-- Go `ValidateSpecFields(spec, validFields)`: `none` for a nil error, otherwise
the errors of the aggregate. -/
def ValidateSpecFields (spec : List (String × Value)) (validFields : List String) :
    Option (List FieldError) :=
  let errs := collectInvalid (validSetOf validFields) [] (GoMap.keys spec)
  if errs.length = 0 then none else ToAggregate errs

/-- Go `ExtractSpecFieldsFromOpenAPI(gvk)`, as a function of the package variable
`openAPISchemaCache` (the empty map before a fetch).  The assertions on
`schema["properties"]` and on `specProp` have no comma-ok form and panic when the
value is not a `map[string]interface{}`. -/
def ExtractSpecFieldsFromOpenAPI (openAPISchemaCache : List (String × Value)) (gvk : String) :
    Result (List String) :=
  match GoMap.get openAPISchemaCache "definitions" with
  | some (.map defs) =>
    match GoMap.get defs gvk with
    | some (.map schema) =>
      match GoMap.get schema "properties" with
      | some (.map props) =>
        match GoMap.get props "spec" with
        | none => .error (".spec not found in schema for " ++ gvk)
        | some (.map specProp) =>
          match GoMap.get specProp "properties" with
          | some (.map specFields) => .ok (GoMap.keys specFields)
          | _ => .error (".spec has no sub-properties in " ++ gvk)
        | some _ => .panicked
      | _ => .panicked
    | _ => .error ("GVK " ++ gvk ++ " not found in schema")
  | _ => .error "OpenAPI: no definitions found"

/-! ## Resource adapter -/

/-- Go `compatibleEngineAdapter` without its resource client, which the
operations below take as the store they act on. -/
structure compatibleEngineAdapter where
  gvr : GroupVersionResource
  kind : String
  deriving DecidableEq, Repr

/-- Go `schema.GroupVersionResource.GroupVersion()`. -/
def GroupVersionResource.GroupVersion (gvr : GroupVersionResource) : GroupVersion :=
  ⟨gvr.Group, gvr.Version⟩

/-- Go `NewCompatibleEngineAdapter(disco, dyn, kind)`: the adapter (`none` for nil)
and the error. -/
def NewCompatibleEngineAdapter (disco : DiscoveryResult) (kind : String) :
    Option compatibleEngineAdapter × Option String :=
  match selectGVR disco kind with
  | (_, some e) => (none, some e)
  | (gvr, none) => (some { gvr := gvr, kind := kind }, none)

/-- Modelled from the spec: the generic resource client of one GVR and namespace
is a store from object name to generic object; `get` answers the object stored
under the name or a not-found error. -/
def clientGet (store : List (String × List (String × Value))) (name : String) :
    Option (List (String × Value)) :=
  GoMap.get store name

/-- Modelled from the spec: `update` of the generic resource client replaces the
object stored under the name the submitted object carries in `metadata.name`,
and fails with a not-found error when the store has none. -/
def clientUpdate (store : List (String × List (String × Value))) (obj : List (String × Value)) :
    List (String × List (String × Value)) × Result Unit :=
  match GoMap.get store (NestedString obj ["metadata", "name"]) with
  | some _ => (GoMap.set store (NestedString obj ["metadata", "name"]) obj, .ok ())
  | none => (store, .error "not found")

/-- Modelled from the spec: `create` of the generic resource client stores the
submitted object under its `metadata.name`, and fails when the name is taken. -/
def clientCreate (store : List (String × List (String × Value))) (obj : List (String × Value)) :
    List (String × List (String × Value)) × Result Unit :=
  match GoMap.get store (NestedString obj ["metadata", "name"]) with
  | some _ => (store, .error "already exists")
  | none => (GoMap.set store (NestedString obj ["metadata", "name"]) obj, .ok ())

/-- The two assignments `Create` and `Update` make on the fetched object:
`existing["spec"] = u["spec"]` and
`existing["metadata"].(map[string]interface{})["labels"] = u["metadata"].(map[string]interface{})["labels"]`.
Both assertions have no comma-ok form and panic (`none`) on a value that is not a
`map[string]interface{}`. -/
def mergeInto (existing u : List (String × Value)) : Option (List (String × Value)) :=
  let existing1 := GoMap.set existing "spec" (index u "spec")
  match GoMap.get existing1 "metadata", GoMap.get u "metadata" with
  | some (.map md), some (.map umd) =>
    some (GoMap.set existing1 "metadata" (.map (GoMap.set md "labels" (index umd "labels"))))
  | _, _ => none

/-- Go `(*compatibleEngineAdapter).Update(ctx, namespace, c)` on the store of the
namespace: the store after the call and the outcome. -/
def Update (a : compatibleEngineAdapter) (store : List (String × List (String × Value)))
    (c : CompatibleEngine) : List (String × List (String × Value)) × Result Unit :=
  match toUnstructured a.gvr.GroupVersion c with
  | .panicked => (store, .panicked)
  | .error e => (store, .error e)
  | .ok u =>
    match clientGet store c.Name with
    | none => (store, .error "not found")
    | some existing =>
      match mergeInto existing u with
      | none => (store, .panicked)
      | some merged => clientUpdate store merged

/-- Go `(*compatibleEngineAdapter).Create(ctx, namespace, c)` on the store of the
namespace: the store after the call and the outcome. -/
def Create (a : compatibleEngineAdapter) (store : List (String × List (String × Value)))
    (c : CompatibleEngine) : List (String × List (String × Value)) × Result Unit :=
  match toUnstructured a.gvr.GroupVersion c with
  | .panicked => (store, .panicked)
  | .error e => (store, .error e)
  | .ok u =>
    match clientGet store c.Name with
    | some existing =>
      match mergeInto existing u with
      | none => (store, .panicked)
      | some merged => clientUpdate store merged
    | none => clientCreate store u

/-! ## The wire form of an object -/

mutual
/-- The value the plane hands back for a submitted value: the JSON encoding
writes an `int32` as a number, which decodes as an `int64`, and a
`map[string]string` as an object, which decodes as a `map[string]interface{}`
of strings; the other dynamic types come back as they went.  A
`map[string]string` without entries stands for the nil map (the zero value of
`Labels`), which the encoding writes as null. -/
def wireValue : Value → Value
  | .int32 n => .int64 n
  | .strMap [] => .null
  | .strMap (e :: m) => .map ((e :: m).map (fun x => (x.1, Value.str x.2)))
  | .map m => .map (wireFields m)
  | .slice l => .slice (wireItems l)
  | .null => .null
  | .str s => .str s
  | .int64 n => .int64 n
  | .float64 f => .float64 f
  | .bool b => .bool b
/-- The wire form of the entries of a map. -/
def wireFields : List (String × Value) → List (String × Value)
  | [] => []
  | (k, v) :: rest => (k, wireValue v) :: wireFields rest
/-- The wire form of the items of a slice. -/
def wireItems : List Value → List Value
  | [] => []
  | v :: rest => wireValue v :: wireItems rest
end

/-! ## JSON-shaped objects -/

mutual
/-- A value is JSON-shaped when it holds only what the plane's decoder produces:
nil, strings, int64, float64, bool, and maps and slices of such values. -/
def jsonShaped : Value → Bool
  | .int32 _ => false
  | .strMap _ => false
  | .map m => fieldsShaped m
  | .slice l => itemsShaped l
  | .null => true
  | .str _ => true
  | .int64 _ => true
  | .float64 _ => true
  | .bool _ => true
/-- Every entry of the map holds a JSON-shaped value. -/
def fieldsShaped : List (String × Value) → Bool
  | [] => true
  | (_, v) :: rest => jsonShaped v && fieldsShaped rest
/-- Every item of the slice is JSON-shaped. -/
def itemsShaped : List Value → Bool
  | [] => true
  | v :: rest => jsonShaped v && itemsShaped rest
end

/-- The `[]interface{}` found at a path of an object, the nil slice when the path
is missing or holds a value of another type: what `NestedSlice` returns when its
deep copy does not panic. -/
def sliceAt (obj : List (String × Value)) (fields : List String) : List Value :=
  match NestedFieldNoCopy (.map obj) fields with
  | some (.slice l) => l
  | _ => []

/-- The `map[string]interface{}` found at a path of an object, the nil map when
the path is missing or holds a value of another type: what `NestedMap` returns
when its deep copy does not panic. -/
def mapAt (obj : List (String × Value)) (fields : List String) : List (String × Value) :=
  (nestedMapNoCopy obj fields).getD []

/-! ## Cache and schema state -/

/-- The package variable `GlobalGVRCache` at start-up: its `items` map is made,
empty. -/
def GlobalGVRCache : Cache :=
  { items := some [], loaded := false }

/-- The zero-value `Cache`, as `&Cache{}` or `new(Cache)` builds it: `items` is the
nil map. -/
def zeroCache : Cache :=
  { items := none, loaded := false }

/-- The package variables `openAPISchemaCache` (`none` for the nil map) and
`openAPISchemaOnce` (whether the once-gate has fired). -/
structure SchemaState where
  openAPISchemaCache : Option (List (String × Value))
  onceDone : Bool

/-- The state at start-up: no document, gate not fired. -/
def SchemaState.initial : SchemaState :=
  { openAPISchemaCache := none, onceDone := false }

/-- What the retrieval inside the once-gate of `FetchOpenAPISchema` comes to: the
request cannot be built (`http.NewRequest` returns a nil request, whose error
the code discards), the HTTP call fails, the body does not decode, or the body
decodes to a map (`none` for the nil map a JSON null gives). -/
inductive FetchOutcome where
  | requestInvalid
  | httpError (e : String)
  | decodeError (e : String)
  | decoded (result : Option (List (String × Value)))

/-- Go `strings.TrimSuffix(s, "/")`. -/
def trimSuffixSlash (s : String) : String :=
  match s.data.reverse with
  | '/' :: rest => String.mk rest.reverse
  | _ => s

/-- Go `FetchOpenAPISchema(apiServer, token)` on the package state; `retrieve`
maps the requested URL and the token to what the retrieval comes to at the time
of the call.  The result is the pair (document, error) returned, or a panic when
the nil request is used.  `sync.Once` marks the gate as fired also when the
function it runs panics. -/
def FetchOpenAPISchema (s : SchemaState) (retrieve : String → String → FetchOutcome)
    (apiServer token : String) :
    SchemaState × Result (Option (List (String × Value)) × Option String) :=
  if s.onceDone then (s, .ok (s.openAPISchemaCache, none))
  else
    match retrieve (trimSuffixSlash apiServer ++ "/openapi/v2") token with
    | .requestInvalid => ({ s with onceDone := true }, .panicked)
    | .httpError e => ({ s with onceDone := true }, .ok (s.openAPISchemaCache, some e))
    | .decodeError e => ({ s with onceDone := true }, .ok (s.openAPISchemaCache, some e))
    | .decoded result =>
      ({ openAPISchemaCache := result, onceDone := true }, .ok (result, none))

/-- One call of `FetchOpenAPISchema`: the server's behaviour at that time and the
arguments. -/
structure FetchCall where
  retrieve : String → String → FetchOutcome
  apiServer : String
  token : String

/-- The state after a sequence of `FetchOpenAPISchema` calls. -/
def fetchState : SchemaState → List FetchCall → SchemaState
  | s, [] => s
  | s, c :: cs => fetchState (FetchOpenAPISchema s c.retrieve c.apiServer c.token).1 cs

/-- What each call of a sequence of `FetchOpenAPISchema` calls returns. -/
def fetchResults : SchemaState → List FetchCall →
    List (Result (Option (List (String × Value)) × Option String))
  | _, [] => []
  | s, c :: cs =>
    (FetchOpenAPISchema s c.retrieve c.apiServer c.token).2 ::
      fetchResults (FetchOpenAPISchema s c.retrieve c.apiServer c.token).1 cs

/-- The number of calls of a sequence that find the once-gate open, that is, that
attempt the retrieval. -/
def fetchAttempts : SchemaState → List FetchCall → Nat
  | _, [] => 0
  | s, c :: cs =>
    (if s.onceDone then 0 else 1) +
      fetchAttempts (FetchOpenAPISchema s c.retrieve c.apiServer c.token).1 cs

/-! ## Watch -/

/-- The `Object` of a `watch.Event`: an `*unstructured.Unstructured` or a value of
another type (such as the status object of an error event). -/
inductive EventObject where
  | unstructured (obj : List (String × Value))
  | other

/-- Go `watch.Event`: the event type (a string such as ADDED) and the object. -/
structure WatchEvent where
  EventType : String
  Object : EventObject

/-- The listener loop of `Watch` on a feed that delivers the given events and then
closes, without cancellation: the callback invocations made, in order, and how
the loop ends (`panicked` when a decode panics, which ends the loop). -/
def watchLoop (a : compatibleEngineAdapter) :
    List WatchEvent → List (String × CompatibleEngine) × Result Unit
  | [] => ([], .ok ())
  | evt :: rest =>
    match evt.Object with
    | .unstructured u =>
      match fromUnstructured a.gvr.GroupVersion a.kind u with
      | .ok c => ((evt.EventType, c) :: (watchLoop a rest).1, (watchLoop a rest).2)
      | .error _ => watchLoop a rest
      | .panicked => ([], .panicked)
    | .other => watchLoop a rest

/-! ## Sample inputs -/

/-- A discovery answer that serves Deployment at apps/v1beta2 only. -/
def discoBetaOnly : DiscoveryResult :=
  { resourceLists := [⟨"apps/v1beta2", [⟨"deployments", "Deployment"⟩]⟩], err := none }

/-- A discovery answer that serves Deployment at apps/v1 and at apps/v1beta2. -/
def discoBoth : DiscoveryResult :=
  { resourceLists :=
      [ ⟨"apps/v1beta2", [⟨"deployments", "Deployment"⟩]⟩,
        ⟨"apps/v1", [⟨"deployments", "Deployment"⟩]⟩ ],
    err := none }

/-- A discovery answer that serves a kind outside the built-in table. -/
def discoWidget : DiscoveryResult :=
  { resourceLists := [⟨"example.com/v1", [⟨"widgets", "Widget"⟩]⟩], err := none }

/-- A discovery answer whose apps/v1 list holds two kinds, Deployment first. -/
def discoApps : DiscoveryResult :=
  { resourceLists :=
      [⟨"apps/v1", [⟨"deployments", "Deployment"⟩, ⟨"statefulsets", "StatefulSet"⟩]⟩],
    err := none }

/-- A Deployment entity with one replica and a SpecPatch on replicas. -/
def patchedDeployment : CompatibleEngine :=
  { Name := "web", Labels := [("app", "web")], Replicas := 1, Image := "nginx",
    APIVersions := [], Kind := "Deployment", Spec := [], Status := [], Metadata := [],
    SpecPatch := [("replicas", .int64 5)] }

/-- A Deployment entity with three replicas and no SpecPatch. -/
def plainDeployment : CompatibleEngine :=
  { Name := "web", Labels := [("app", "web")], Replicas := 3, Image := "nginx",
    APIVersions := [], Kind := "Deployment", Spec := [], Status := [], Metadata := [],
    SpecPatch := [] }

/-- A CronJob entity with an image and no SpecPatch. -/
def plainCronJob : CompatibleEngine :=
  { Name := "tick", Labels := [("app", "tick")], Replicas := 0, Image := "nginx",
    APIVersions := [], Kind := "CronJob", Spec := [], Status := [], Metadata := [],
    SpecPatch := [] }

/-- A schema document whose only definition is a scalar type without properties,
as the published schema has for `meta.v1.Time`. -/
def schemaTimeOnly : List (String × Value) :=
  [ ("definitions", .map
      [ ("io.k8s.apimachinery.pkg.apis.meta.v1.Time",
          .map [("type", .str "string"), ("format", .str "date-time")]) ]) ]

/-- A schema document whose definition declares `spec` as a string. -/
def schemaScalarSpec : List (String × Value) :=
  [ ("definitions", .map
      [ ("io.k8s.api.apps.v1.Deployment",
          .map [("properties", .map [("spec", .str "object")])]) ]) ]

/-- A schema document whose definition declares three spec fields in place. -/
def schemaInline : List (String × Value) :=
  [ ("definitions", .map
      [ ("io.k8s.api.apps.v1.Deployment",
          .map [("properties", .map [("spec", .map [("properties", .map
            [("replicas", .null), ("selector", .null), ("template", .null)])])])]) ]) ]

/-- An adapter pinned to Deployment at apps/v1. -/
def deploymentAdapter : compatibleEngineAdapter :=
  { gvr := ⟨"apps", "v1", "deployments"⟩, kind := "Deployment" }

/-- A stored Deployment object named web, with a status and an annotation. -/
def storedWeb : List (String × Value) :=
  [ ("apiVersion", .str "apps/v1"),
    ("kind", .str "Deployment"),
    ("metadata", .map
      [ ("name", .str "web"),
        ("labels", .map [("app", .str "old")]),
        ("annotations", .map [("owner", .str "team-a")]),
        ("creationTimestamp", .str "2024-01-01T00:00:00Z") ]),
    ("spec", .map [("replicas", .int64 1)]),
    ("status", .map [("readyReplicas", .int64 1)]) ]

/-- A store holding the object web and another object. -/
def storeWeb : List (String × List (String × Value)) :=
  [ ("web", storedWeb),
    ("db", [("kind", .str "Deployment"), ("metadata", .map [("name", .str "db")])]) ]

/-- A server whose retrieval fails at the HTTP call. -/
def refusingServer : String → String → FetchOutcome :=
  fun _ _ => .httpError "connection refused"

/-- A server that answers the schema document `schemaInline`. -/
def schemaServer : String → String → FetchOutcome :=
  fun _ _ => .decoded (some schemaInline)

/-- A Job entity with no SpecPatch. -/
def plainJob : CompatibleEngine :=
  { Name := "batch", Labels := [("app", "batch")], Replicas := 0, Image := "busybox",
    APIVersions := [], Kind := "Job", Spec := [], Status := [], Metadata := [],
    SpecPatch := [] }

/-- A generic object whose metadata, spec and containers have the wrong shape. -/
def misshapenObject : List (String × Value) :=
  [ ("metadata", .str "none"),
    ("spec", .map [("replicas", .str "three"), ("template", .slice [])]),
    ("status", .int64 7) ]

/-- A feed that reports the object web as added, modified and deleted. -/
def feedWeb : List WatchEvent :=
  [ ⟨"ADDED", .unstructured storedWeb⟩,
    ⟨"MODIFIED", .unstructured storedWeb⟩,
    ⟨"DELETED", .unstructured storedWeb⟩ ]

/-- The Deployment entity web with five replicas and another image. -/
def scaledDeployment : CompatibleEngine :=
  { Name := "web", Labels := [("app", "web"), ("tier", "front")], Replicas := 5,
    Image := "nginx:2", APIVersions := [], Kind := "Deployment", Spec := [], Status := [],
    Metadata := [], SpecPatch := [] }

/-- The entity web with its Kind left empty. -/
def kindlessEntity : CompatibleEngine :=
  { Name := "web", Labels := [("app", "web")], Replicas := 3, Image := "nginx",
    APIVersions := [], Kind := "", Spec := [], Status := [], Metadata := [],
    SpecPatch := [] }

/-! ## Lemmas on Go maps -/

namespace GoMap

variable {κ α : Type} [DecidableEq κ]

theorem get_filter_ne (m : List (κ × α)) (k k' : κ) (h : k' ≠ k) :
    get (m.filter (fun e => !decide (e.1 = k))) k' = get m k' := by
  induction m with
  | nil => rfl
  | cons e rest ih =>
    obtain ⟨a, v⟩ := e
    by_cases hak : a = k
    · have hak' : ¬ a = k' := fun h' => h (h'.symm.trans hak)
      have hkk' : ¬ k = k' := fun h' => h h'.symm
      simp [List.filter, hak, get, hkk', ih]
    · by_cases hak' : a = k'
      · subst hak'
        simp [List.filter, hak, get]
      · simp [List.filter, hak, get, hak', ih]

theorem get_set_self (m : List (κ × α)) (k : κ) (v : α) : get (set m k v) k = some v := by
  simp [set, get]

theorem get_set_ne (m : List (κ × α)) (k k' : κ) (v : α) (h : k' ≠ k) :
    get (set m k v) k' = get m k' := by
  have hk : ¬ k = k' := fun h' => h h'.symm
  simp [set, get, hk, get_filter_ne m k k' h]

theorem get_eq_none_iff (m : List (κ × α)) (k : κ) :
    get m k = none ↔ k ∉ m.map Prod.fst := by
  induction m with
  | nil => simp [get]
  | cons e rest ih =>
    obtain ⟨a, v⟩ := e
    by_cases hak : a = k
    · simp [get, hak]
    · have hka : ¬ k = a := fun h' => hak h'.symm
      simp [get, hak, hka, ih]

theorem get_isSome_iff (m : List (κ × α)) (k : κ) :
    (get m k).isSome ↔ k ∈ m.map Prod.fst := by
  rw [← not_iff_not, ← get_eq_none_iff]
  cases get m k <;> simp

theorem mem_keys (m : List (κ × α)) (k : κ) : k ∈ keys m ↔ (get m k).isSome := by
  rw [get_isSome_iff, keys, List.mem_dedup]

theorem nodup_keys (m : List (κ × α)) : (keys m).Nodup :=
  List.nodup_dedup _

end GoMap

/-! ## Resolution -/

theorem get_selectInner (kind : String) (gv g : GroupVersion) (rs : List APIResource)
    (p : List (GroupVersion × String)) (n : String)
    (h : GoMap.get (selectInner kind gv p rs) g = some n) :
    GoMap.get p g = some n ∨ (g = gv ∧ ∃ r ∈ rs, r.Kind = kind ∧ r.Name = n) := by
  induction rs generalizing p with
  | nil => exact Or.inl h
  | cons r rest ih =>
    simp only [selectInner, List.foldl_cons] at h
    by_cases hk : r.Kind = kind
    · rw [if_pos hk] at h
      rcases ih _ h with h1 | ⟨hg, r', hr', hk', hn'⟩
      · by_cases hg : g = gv
        · subst hg
          rw [GoMap.get_set_self] at h1
          exact Or.inr ⟨rfl, r, List.mem_cons_self _ _, hk, Option.some.inj h1⟩
        · rw [GoMap.get_set_ne _ _ _ _ hg] at h1
          exact Or.inl h1
      · exact Or.inr ⟨hg, r', List.mem_cons_of_mem _ hr', hk', hn'⟩
    · rw [if_neg hk] at h
      rcases ih _ h with h1 | ⟨hg, r', hr', hk', hn'⟩
      · exact Or.inl h1
      · exact Or.inr ⟨hg, r', List.mem_cons_of_mem _ hr', hk', hn'⟩

theorem isSome_selectInner (kind : String) (gv g : GroupVersion) (rs : List APIResource)
    (p : List (GroupVersion × String)) :
    (GoMap.get (selectInner kind gv p rs) g).isSome ↔
      ((GoMap.get p g).isSome ∨ (g = gv ∧ ∃ r ∈ rs, r.Kind = kind)) := by
  induction rs generalizing p with
  | nil => simp [selectInner]
  | cons r rest ih =>
    simp only [selectInner, List.foldl_cons]
    by_cases hk : r.Kind = kind
    · rw [if_pos hk]
      have := ih (GoMap.set p gv r.Name)
      simp only [selectInner] at this
      rw [this]
      by_cases hg : g = gv
      · subst hg
        simp only [GoMap.get_set_self, Option.isSome_some, true_or, true_iff]
        exact Or.inr ⟨trivial, r, List.mem_cons_self _ _, hk⟩
      · simp [GoMap.get_set_ne _ _ _ _ hg, hg]
    · rw [if_neg hk]
      have := ih p
      simp only [selectInner] at this
      rw [this]
      constructor
      · rintro (h1 | ⟨hg, r', hr', hk'⟩)
        · exact Or.inl h1
        · exact Or.inr ⟨hg, r', List.mem_cons_of_mem _ hr', hk'⟩
      · rintro (h1 | ⟨hg, r', hr', hk'⟩)
        · exact Or.inl h1
        · rcases List.mem_cons.mp hr' with rfl | hr''
          · exact absurd hk' hk
          · exact Or.inr ⟨hg, r', hr'', hk'⟩

/-- The loop of `selectGVR` that fills `possible`, started from any map. -/
theorem get_selectPossible_from (kind : String) (g : GroupVersion) (n : String)
    (rls : List APIResourceList) (p : List (GroupVersion × String))
    (h : GoMap.get (rls.foldl
      (fun p rl =>
        match ParseGroupVersion rl.GroupVersion with
        | none => p
        | some gv => selectInner kind gv p rl.APIResources) p) g = some n) :
    GoMap.get p g = some n ∨ ServedAs rls kind g n := by
  induction rls generalizing p with
  | nil => exact Or.inl h
  | cons rl rest ih =>
    simp only [List.foldl_cons] at h
    rcases ih _ h with h1 | ⟨rl', hrl', hp', hr'⟩
    · cases hp : ParseGroupVersion rl.GroupVersion with
      | none =>
        rw [hp] at h1
        exact Or.inl h1
      | some gv =>
        rw [hp] at h1
        rcases get_selectInner kind gv g _ p n h1 with h2 | ⟨hg, r, hr, hk, hn⟩
        · exact Or.inl h2
        · exact Or.inr ⟨rl, List.mem_cons_self _ _, by rw [hp, hg], r, hr, hk, hn⟩
    · exact Or.inr ⟨rl', List.mem_cons_of_mem _ hrl', hp', hr'⟩

theorem isSome_selectPossible_from (kind : String) (g : GroupVersion)
    (rls : List APIResourceList) (p : List (GroupVersion × String)) :
    (GoMap.get (rls.foldl
      (fun p rl =>
        match ParseGroupVersion rl.GroupVersion with
        | none => p
        | some gv => selectInner kind gv p rl.APIResources) p) g).isSome ↔
      ((GoMap.get p g).isSome ∨ Served rls kind g) := by
  induction rls generalizing p with
  | nil => simp [Served]
  | cons rl rest ih =>
    simp only [List.foldl_cons]
    rw [ih]
    cases hp : ParseGroupVersion rl.GroupVersion with
    | none =>
      simp only
      constructor
      · rintro (h1 | ⟨rl', hrl', hp', hr'⟩)
        · exact Or.inl h1
        · exact Or.inr ⟨rl', List.mem_cons_of_mem _ hrl', hp', hr'⟩
      · rintro (h1 | ⟨rl', hrl', hp', hr'⟩)
        · exact Or.inl h1
        · rcases List.mem_cons.mp hrl' with rfl | hrl''
          · rw [hp] at hp'
            exact absurd hp' (by simp)
          · exact Or.inr ⟨rl', hrl'', hp', hr'⟩
    | some gv =>
      simp only
      rw [isSome_selectInner]
      constructor
      · rintro ((h1 | ⟨hg, hr⟩) | ⟨rl', hrl', hp', hr'⟩)
        · exact Or.inl h1
        · exact Or.inr ⟨rl, List.mem_cons_self _ _, by rw [hp, hg], hr⟩
        · exact Or.inr ⟨rl', List.mem_cons_of_mem _ hrl', hp', hr'⟩
      · rintro (h1 | ⟨rl', hrl', hp', hr'⟩)
        · exact Or.inl (Or.inl h1)
        · rcases List.mem_cons.mp hrl' with rfl | hrl''
          · rw [hp] at hp'
            exact Or.inl (Or.inr ⟨(Option.some.inj hp').symm, hr'⟩)
          · exact Or.inr ⟨rl', hrl'', hp', hr'⟩

theorem get_selectPossible (kind : String) (g : GroupVersion) (n : String)
    (rls : List APIResourceList) (h : GoMap.get (selectPossible kind rls) g = some n) :
    ServedAs rls kind g n := by
  rcases get_selectPossible_from kind g n rls [] h with h1 | h1
  · simp [GoMap.get] at h1
  · exact h1

theorem isSome_selectPossible (kind : String) (g : GroupVersion) (rls : List APIResourceList) :
    (GoMap.get (selectPossible kind rls) g).isSome ↔ Served rls kind g := by
  unfold selectPossible
  rw [isSome_selectPossible_from]
  simp [GoMap.get]

theorem firstServed_eq_some (possible : List (GroupVersion × String)) (gvs : List GroupVersion)
    (gvr : GroupVersionResource) (h : firstServed possible gvs = some gvr) :
    ∃ pre post, gvs = pre ++ ⟨gvr.Group, gvr.Version⟩ :: post ∧
      (∀ g ∈ pre, GoMap.get possible g = none) ∧
      GoMap.get possible ⟨gvr.Group, gvr.Version⟩ = some gvr.Resource := by
  induction gvs with
  | nil => simp [firstServed] at h
  | cons gv rest ih =>
    simp only [firstServed] at h
    cases hg : GoMap.get possible gv with
    | some res =>
      rw [hg] at h
      have h' := Option.some.inj h
      subst h'
      exact ⟨[], rest, rfl, by simp, hg⟩
    | none =>
      rw [hg] at h
      obtain ⟨pre, post, he, hpre, hget⟩ := ih h
      refine ⟨gv :: pre, post, by rw [he]; rfl, ?_, hget⟩
      intro g hgm
      rcases List.mem_cons.mp hgm with rfl | hgm'
      · exact hg
      · exact hpre g hgm'

theorem firstServed_eq_none (possible : List (GroupVersion × String)) (gvs : List GroupVersion) :
    firstServed possible gvs = none ↔ ∀ g ∈ gvs, GoMap.get possible g = none := by
  induction gvs with
  | nil => simp [firstServed]
  | cons gv rest ih =>
    simp only [firstServed]
    cases hg : GoMap.get possible gv with
    | some res => simp [hg]
    | none => simp [hg, ih]

/-- The list `selectGVR` walks for a kind is the one the registry holds for it at
start-up. -/
theorem candidates_eq_startup (kind : String) :
    candidates kind = (GoMap.get knownKindGVRs kind).getD [] :=
  rfl

/-- Measured against the registry as it is at start-up: when `selectGVR` succeeds,
the group-version it returns is the first one of the kind's start-up candidate
list at which discovery serves a resource of that kind (every earlier candidate
is unserved), and the resource name it returns is the name of a resource of
that kind listed at that group-version. -/
theorem selectGVR_first_served (disco : DiscoveryResult) (kind : String)
    (gvr : GroupVersionResource) (h : selectGVR disco kind = (gvr, none)) :
    disco.err = none ∧
    ∃ pre post, (GoMap.get knownKindGVRs kind).getD [] = pre ++ ⟨gvr.Group, gvr.Version⟩ :: post ∧
      (∀ g ∈ pre, ¬ Served disco.resourceLists kind g) ∧
      ServedAs disco.resourceLists kind ⟨gvr.Group, gvr.Version⟩ gvr.Resource := by
  rw [← candidates_eq_startup]
  unfold selectGVR at h
  cases he : disco.err with
  | some e => rw [he] at h; simp at h
  | none =>
    rw [he] at h
    refine ⟨rfl, ?_⟩
    cases hf : firstServed (selectPossible kind disco.resourceLists) (candidates kind) with
    | none => rw [hf] at h; simp at h
    | some g =>
      rw [hf] at h
      have hg : g = gvr := by simpa using h
      subst hg
      obtain ⟨pre, post, hc, hpre, hget⟩ := firstServed_eq_some _ _ _ hf
      refine ⟨pre, post, hc, ?_, get_selectPossible _ _ _ _ hget⟩
      intro g' hg' hs
      have := (isSome_selectPossible kind g' disco.resourceLists).mpr hs
      rw [hpre g' hg'] at this
      simp at this

/-- With the registry as it is at start-up, Deployment has the candidates apps/v1,
apps/v1beta2, extensions/v1beta1 in that order; served at apps/v1beta2 only it
resolves to apps/v1beta2, served at both it resolves to apps/v1. -/
theorem selectGVR_first_served_witness :
    selectGVR discoBetaOnly "Deployment" = (⟨"apps", "v1beta2", "deployments"⟩, none) ∧
    selectGVR discoBoth "Deployment" = (⟨"apps", "v1", "deployments"⟩, none) ∧
    (discoBoth.err = none ∧
      ∃ pre post, (GoMap.get knownKindGVRs "Deployment").getD []
          = pre ++ ⟨"apps", "v1"⟩ :: post ∧
        (∀ g ∈ pre, ¬ Served discoBoth.resourceLists "Deployment" g) ∧
        ServedAs discoBoth.resourceLists "Deployment" ⟨"apps", "v1"⟩ "deployments") :=
  ⟨by decide, by decide,
    selectGVR_first_served discoBoth "Deployment" ⟨"apps", "v1", "deployments"⟩ (by decide)⟩

/-- Measured against the registry as it is at start-up: `selectGVR` returns an
error exactly when the discovery query failed or no group-version of the kind's
start-up candidate list is served with a resource of that kind; with the error
it returns the zero GVR; and it returns an error for every kind that has no
entry in its own table, or none in the start-up registry, whatever discovery
reports. -/
theorem selectGVR_error_iff (disco : DiscoveryResult) (kind : String) :
    ((selectGVR disco kind).2.isSome ↔
      (disco.err.isSome ∨
        ∀ gv ∈ (GoMap.get knownKindGVRs kind).getD [], ¬ Served disco.resourceLists kind gv)) ∧
    ((selectGVR disco kind).2.isSome → (selectGVR disco kind).1 = GroupVersionResource.zero) ∧
    (GoMap.get targets kind = none → (selectGVR disco kind).2.isSome) ∧
    (GoMap.get knownKindGVRs kind = none → (selectGVR disco kind).2.isSome) := by
  rw [← candidates_eq_startup]
  suffices hs : ((selectGVR disco kind).2.isSome ↔
      (disco.err.isSome ∨ ∀ gv ∈ candidates kind, ¬ Served disco.resourceLists kind gv)) ∧
      ((selectGVR disco kind).2.isSome → (selectGVR disco kind).1 = GroupVersionResource.zero) ∧
      (GoMap.get targets kind = none → (selectGVR disco kind).2.isSome) from
    ⟨hs.1, hs.2.1, hs.2.2, fun h => hs.2.2 h⟩
  have key : firstServed (selectPossible kind disco.resourceLists) (candidates kind) = none ↔
      ∀ gv ∈ candidates kind, ¬ Served disco.resourceLists kind gv := by
    rw [firstServed_eq_none]
    constructor
    · intro h gv hgv hs
      have := (isSome_selectPossible kind gv disco.resourceLists).mpr hs
      rw [h gv hgv] at this
      simp at this
    · intro h gv hgv
      cases hg : GoMap.get (selectPossible kind disco.resourceLists) gv with
      | none => rfl
      | some n =>
        exact absurd ((isSome_selectPossible kind gv disco.resourceLists).mp (by simp [hg]))
          (h gv hgv)
  unfold selectGVR
  cases he : disco.err with
  | some e => simp
  | none =>
    cases hf : firstServed (selectPossible kind disco.resourceLists) (candidates kind) with
    | none =>
      have hall := key.mp hf
      refine ⟨by simpa using hall, by simp, by simp⟩
    | some g =>
      have hne : ¬ ∀ gv ∈ candidates kind, ¬ Served disco.resourceLists kind gv := by
        intro hall
        rw [key.mpr hall] at hf
        simp at hf
      refine ⟨by simpa using hne, by simp, ?_⟩
      intro ht
      exfalso
      apply hne
      intro gv hgv
      simp [candidates, ht] at hgv

/-- C1, at a failing input: after `RegisterKind` of Deployment with the one candidate
apps/v1beta2 the kind's candidate list in the registry is that list, discovery
serves Deployment at apps/v1beta2 (and at apps/v1), and `selectGVR` returns
apps/v1, which is not a candidate of the list, instead of the first served
candidate apps/v1beta2. -/
theorem selectGVR_ignores_registered_list :
    GoMap.get (RegisterKind knownKindGVRs "Deployment" [⟨"apps", "v1beta2"⟩]) "Deployment"
      = some [⟨"apps", "v1beta2"⟩] ∧
    ServedAs discoBoth.resourceLists "Deployment" ⟨"apps", "v1beta2"⟩ "deployments" ∧
    selectGVR discoBoth "Deployment" = (⟨"apps", "v1", "deployments"⟩, none) ∧
    (⟨"apps", "v1"⟩ : GroupVersion) ∉ [(⟨"apps", "v1beta2"⟩ : GroupVersion)] := by
  refine ⟨by decide, ?_, by decide, by decide⟩
  exact ⟨_, List.mem_cons_self _ _, by decide, _, List.mem_cons_self _ _, rfl, rfl⟩

/-- C6, at failing inputs: with the kind Widget registered with the candidate
example.com/v1, the discovery query succeeding and serving a Widget resource at
that candidate, `selectGVR` returns an error; and with Deployment registered
with no candidate at all, `selectGVR` returns apps/v1 and no error. -/
theorem selectGVR_error_ignores_registry :
    GoMap.get (RegisterKind knownKindGVRs "Widget" [⟨"example.com", "v1"⟩]) "Widget"
      = some [⟨"example.com", "v1"⟩] ∧
    discoWidget.err = none ∧
    Served discoWidget.resourceLists "Widget" ⟨"example.com", "v1"⟩ ∧
    selectGVR discoWidget "Widget"
      = (GroupVersionResource.zero, some "no supported Widget version found") ∧
    GoMap.get (RegisterKind knownKindGVRs "Deployment" []) "Deployment" = some [] ∧
    selectGVR discoBoth "Deployment" = (⟨"apps", "v1", "deployments"⟩, none) := by
  refine ⟨by decide, rfl, ?_, by decide, by decide, by decide⟩
  exact ⟨_, List.mem_cons_self _ _, by decide, _, List.mem_cons_self _ _, rfl⟩

/-- C8: when the discovery query fails, `Cache.Refresh` returns that error and
leaves the cache as it was: every kind reads as before and the loaded flag keeps
its value. -/
theorem refresh_failure_keeps_cache (c : Cache) (rls : List APIResourceList) (e : String)
    (knownKinds : List (String × List GroupVersion)) :
    (Cache.Refresh c ⟨rls, some e⟩ knownKinds).2 = .error e ∧
    (∀ kind, (Cache.Refresh c ⟨rls, some e⟩ knownKinds).1.Get kind = c.Get kind) ∧
    (Cache.Refresh c ⟨rls, some e⟩ knownKinds).1.loaded = c.loaded ∧
    (Cache.Refresh c ⟨rls, some e⟩ knownKinds).1 = c := by
  simp [Cache.Refresh]

/-- C4, at a failing input: after `RegisterKind` of the kind Widget with the
candidate example.com/v1 the registry holds exactly that list, discovery serves
a Widget resource at example.com/v1, and `selectGVR` still fails, because it
walks its own table and never reads the registry. -/
theorem registerKind_not_seen_by_selectGVR :
    GoMap.get (RegisterKind knownKindGVRs "Widget" [⟨"example.com", "v1"⟩]) "Widget"
      = some [⟨"example.com", "v1"⟩] ∧
    ServedAs discoWidget.resourceLists "Widget" ⟨"example.com", "v1"⟩ "widgets" ∧
    selectGVR discoWidget "Widget"
      = (GroupVersionResource.zero, some "no supported Widget version found") ∧
    NewCompatibleEngineAdapter discoWidget "Widget"
      = (none, some "no supported Widget version found") := by
  refine ⟨by decide, ?_, by decide, by decide⟩
  exact ⟨_, List.mem_cons_self _ _, by decide, _, List.mem_cons_self _ _, rfl, rfl⟩

/-- C5, at a failing input: discovery lists deployments and statefulsets at
apps/v1; `Cache.Refresh` with the built-in candidate lists caches the resource
name statefulsets for the kind Deployment, while `selectGVR` on the same answer
resolves Deployment to deployments. -/
theorem refresh_disagrees_with_selectGVR :
    (Cache.Refresh ⟨some [], false⟩ discoApps knownKindGVRs).2 = .ok () ∧
    (Cache.Refresh ⟨some [], false⟩ discoApps knownKindGVRs).1.Get "Deployment"
      = (⟨"apps", "v1", "statefulsets"⟩, true) ∧
    selectGVR discoApps "Deployment" = (⟨"apps", "v1", "deployments"⟩, none) := by
  decide

/-! ## Field validator -/

theorem isSome_get_foldl_set (vf : List String) (acc : List (String × Unit)) (k : String) :
    (GoMap.get (vf.foldl (fun s f => GoMap.set s f ()) acc) k).isSome ↔
      ((GoMap.get acc k).isSome ∨ k ∈ vf) := by
  induction vf generalizing acc with
  | nil => simp
  | cons f rest ih =>
    simp only [List.foldl_cons]
    rw [ih]
    by_cases hk : k = f
    · subst hk
      simp [GoMap.get_set_self]
    · simp [GoMap.get_set_ne _ _ _ _ hk, hk]

theorem isSome_get_validSetOf (vf : List String) (k : String) :
    (GoMap.get (validSetOf vf) k).isSome ↔ k ∈ vf := by
  unfold validSetOf
  rw [isSome_get_foldl_set]
  simp [GoMap.get]

theorem collectInvalid_eq (vs : List (String × Unit)) (errs : List FieldError)
    (ks : List String) :
    collectInvalid vs errs ks =
      errs ++ (ks.filter (fun k => !(GoMap.get vs k).isSome)).map invalidField := by
  induction ks generalizing errs with
  | nil => simp [collectInvalid]
  | cons k rest ih =>
    have ih1 := ih errs
    have ih2 := ih (errs ++ [invalidField k])
    simp only [collectInvalid, List.foldl_cons] at ih1 ih2 ⊢
    cases hk : GoMap.get vs k with
    | some u => simp [hk, ih1]
    | none => simp [hk, ih2]

theorem invalidField_injective : Function.Injective invalidField := by
  intro a b h
  have := congrArg FieldError.BadValue h
  simpa [invalidField] using this

theorem dropSeen_of_nodup (l seen : List FieldError) (hn : l.Nodup)
    (hd : ∀ e ∈ l, e ∉ seen) : dropSeen seen l = l := by
  induction l generalizing seen with
  | nil => rfl
  | cons e rest ih =>
    have he : e ∉ seen := hd e (List.mem_cons_self _ _)
    have hn' := List.nodup_cons.mp hn
    simp only [dropSeen, if_neg he]
    rw [ih (e :: seen) hn'.2]
    intro x hx hxs
    rcases List.mem_cons.mp hxs with rfl | hxs'
    · exact hn'.1 hx
    · exact hd x (List.mem_cons_of_mem _ hx) hxs'

/-- The violations `ValidateSpecFields` reports: one per key of `spec` outside
`validFields`. -/
theorem validateSpecFields_eq (spec : List (String × Value)) (vf : List String) :
    ValidateSpecFields spec vf =
      if ((GoMap.keys spec).filter (fun k => decide (k ∉ vf))).length = 0 then none
      else some (((GoMap.keys spec).filter (fun k => decide (k ∉ vf))).map invalidField) := by
  have hf : (GoMap.keys spec).filter (fun k => !(GoMap.get (validSetOf vf) k).isSome)
      = (GoMap.keys spec).filter (fun k => decide (k ∉ vf)) := by
    apply List.filter_congr
    intro k _
    have := isSome_get_validSetOf vf k
    by_cases hk : k ∈ vf
    · simp [hk, this.mpr hk]
    · have h' : (GoMap.get (validSetOf vf) k).isSome = false := by
        cases hs : (GoMap.get (validSetOf vf) k).isSome with
        | true => exact absurd (this.mp hs) hk
        | false => rfl
      simp [hk, h']
  unfold ValidateSpecFields
  simp only [collectInvalid_eq, List.nil_append, hf, List.length_map]
  by_cases h0 : ((GoMap.keys spec).filter (fun k => decide (k ∉ vf))).length = 0
  · rw [if_pos h0, if_pos h0]
  · rw [if_neg h0, if_neg h0]
    unfold ToAggregate
    rw [List.length_map, if_neg h0, dropSeen_of_nodup]
    · exact ((GoMap.nodup_keys spec).filter _).map invalidField_injective
    · intro e _ he
      simp at he

/-- C7: `ValidateSpecFields` returns no error exactly when every key bound in
`spec` occurs in `validFields`; otherwise the aggregate holds, for every key,
one violation when the key is bound in `spec` and absent from `validFields` and
none otherwise, and holds nothing but such violations. -/
theorem validateSpecFields_violations (spec : List (String × Value)) (vf : List String) :
    (ValidateSpecFields spec vf = none ↔ ∀ k, (GoMap.get spec k).isSome → k ∈ vf) ∧
    (∀ agg, ValidateSpecFields spec vf = some agg →
      (∀ k, agg.count (invalidField k) =
        if (GoMap.get spec k).isSome ∧ k ∉ vf then 1 else 0) ∧
      (∀ e ∈ agg, ∃ k, (GoMap.get spec k).isSome ∧ k ∉ vf ∧ e = invalidField k)) := by
  rw [validateSpecFields_eq]
  constructor
  · constructor
    · intro h k hk
      by_contra hkv
      have hmem : k ∈ (GoMap.keys spec).filter (fun k => decide (k ∉ vf)) := by
        simp [List.mem_filter, GoMap.mem_keys, hk, hkv]
      by_cases h0 : ((GoMap.keys spec).filter (fun k => decide (k ∉ vf))).length = 0
      · rw [List.length_eq_zero.mp h0] at hmem
        simp at hmem
      · rw [if_neg h0] at h
        simp at h
    · intro h
      have h0 : ((GoMap.keys spec).filter (fun k => decide (k ∉ vf))).length = 0 := by
        rw [List.length_eq_zero, List.filter_eq_nil_iff]
        intro k hk
        simp [h k ((GoMap.mem_keys spec k).mp hk)]
      rw [if_pos h0]
  · intro agg hagg
    by_cases h0 : ((GoMap.keys spec).filter (fun k => decide (k ∉ vf))).length = 0
    · rw [if_pos h0] at hagg
      simp at hagg
    · rw [if_neg h0] at hagg
      have hagg' := (Option.some.inj hagg).symm
      subst hagg'
      constructor
      · intro k
        rw [List.count_map_of_injective _ _ invalidField_injective]
        by_cases hc : (GoMap.get spec k).isSome ∧ k ∉ vf
        · rw [if_pos hc]
          apply List.count_eq_one_of_mem ((GoMap.nodup_keys spec).filter _)
          simp [List.mem_filter, GoMap.mem_keys, hc.1, hc.2]
        · rw [if_neg hc]
          apply List.count_eq_zero_of_not_mem
          intro hm
          apply hc
          have := List.mem_filter.mp hm
          exact ⟨(GoMap.mem_keys spec k).mp this.1, by simpa using this.2⟩
      · intro e he
        obtain ⟨k, hk, rfl⟩ := List.mem_map.mp he
        have := List.mem_filter.mp hk
        exact ⟨k, (GoMap.mem_keys spec k).mp this.1, by simpa using this.2, rfl⟩

/-- C7, at the input of the specification: the spec with keys replicas and
bogusField against the fields replicas, selector, template yields exactly one
violation, for bogusField. -/
theorem validateSpecFields_bogusField :
    ValidateSpecFields [("replicas", .int64 3), ("bogusField", .bool true)]
      ["replicas", "selector", "template"] = some [invalidField "bogusField"] := by
  decide

/-! ## Schema reader -/

/-- When the whole path `definitions[gvk].properties.spec.properties` is made of
maps, `ExtractSpecFieldsFromOpenAPI` returns the keys of the last one. -/
theorem extractSpecFields_ok (cache defs schema props specProp specFields : List (String × Value))
    (gvk : String)
    (h1 : GoMap.get cache "definitions" = some (.map defs))
    (h2 : GoMap.get defs gvk = some (.map schema))
    (h3 : GoMap.get schema "properties" = some (.map props))
    (h4 : GoMap.get props "spec" = some (.map specProp))
    (h5 : GoMap.get specProp "properties" = some (.map specFields)) :
    ExtractSpecFieldsFromOpenAPI cache gvk = .ok (GoMap.keys specFields) := by
  simp [ExtractSpecFieldsFromOpenAPI, h1, h2, h3, h4, h5]

/-- C9, at failing inputs: on a definition that has no `properties` entry, and on
one whose `spec` entry is not a mapping, `ExtractSpecFieldsFromOpenAPI` panics
instead of returning an error; on a definition with the whole path in place it
returns the declared field names, and before any fetch it returns an error. -/
theorem extractSpecFields_panics :
    ExtractSpecFieldsFromOpenAPI schemaTimeOnly "io.k8s.apimachinery.pkg.apis.meta.v1.Time"
      = .panicked ∧
    ExtractSpecFieldsFromOpenAPI schemaScalarSpec "io.k8s.api.apps.v1.Deployment" = .panicked ∧
    ExtractSpecFieldsFromOpenAPI schemaInline "io.k8s.api.apps.v1.Deployment"
      = .ok ["replicas", "selector", "template"] ∧
    ExtractSpecFieldsFromOpenAPI [] "io.k8s.api.apps.v1.Deployment"
      = .error "OpenAPI: no definitions found" := by
  decide

/-! ## Object converter -/

theorem range_ne_nil {α : Type} (m : List (String × α)) (h : m ≠ []) : GoMap.range m ≠ [] := by
  cases m with
  | nil => exact absurd rfl h
  | cons e rest =>
    obtain ⟨k, v⟩ := e
    intro hr
    have hk : k ∈ GoMap.keys ((k, v) :: rest) := by
      rw [GoMap.mem_keys]
      simp [GoMap.get]
    have hm : (k, v) ∈ GoMap.range ((k, v) :: rest) := by
      unfold GoMap.range
      rw [List.mem_filterMap]
      exact ⟨k, hk, by simp [GoMap.get]⟩
    rw [hr] at hm
    simp at hm

/-- The SpecPatch loop of `toUnstructured` runs before `base["spec"]` is assigned:
with any binding to visit its type assertion panics. -/
theorem toUnstructured_panics_of_specPatch (gv : GroupVersion) (c : CompatibleEngine)
    (h : c.SpecPatch ≠ []) : toUnstructured gv c = .panicked := by
  unfold toUnstructured
  cases hr : GoMap.range c.SpecPatch with
  | nil => exact absurd hr (range_ne_nil _ h)
  | cons e rest =>
    obtain ⟨k, v⟩ := e
    simp [applySpecPatch, GoMap.get]

/-- C3, at a failing input: for the Deployment with Replicas 1 and SpecPatch
{replicas: 5} `toUnstructured` panics and returns no object, so no spec carries
the patch; without the SpecPatch the same entity is encoded with replicas 1. -/
theorem toUnstructured_specPatch_panics :
    toUnstructured ⟨"apps", "v1"⟩ patchedDeployment = .panicked ∧
    (toUnstructured ⟨"apps", "v1"⟩ { patchedDeployment with SpecPatch := [] }).bind
      (fun u => .ok (NestedFieldNoCopy (.map u) ["spec", "replicas"]))
      = .ok (some (.int32 1)) := by
  exact ⟨rfl, rfl⟩

/-- C2, at failing inputs: decoding the object `toUnstructured` builds panics, for
the CronJob and for the Deployment alike, in the deep copy of `spec`, which
holds `int32` and `map[string]string` values; and on the wire form of the
CronJob object, where decoding returns, the decoded Image is empty although the
entity has the image nginx, while on the wire form of the Deployment object
name, labels, replicas and image come back. -/
theorem roundTrip_fails :
    (toUnstructured ⟨"batch", "v1"⟩ plainCronJob).bind
      (fromUnstructured ⟨"batch", "v1"⟩ "CronJob") = .panicked ∧
    (toUnstructured ⟨"apps", "v1"⟩ plainDeployment).bind
      (fromUnstructured ⟨"apps", "v1"⟩ "Deployment") = .panicked ∧
    (∃ r, (toUnstructured ⟨"batch", "v1"⟩ plainCronJob).bind
        (fun u => fromUnstructured ⟨"batch", "v1"⟩ "CronJob" (wireFields u)) = .ok r ∧
      r.Image = "" ∧ plainCronJob.Image = "nginx" ∧
      r.Name = plainCronJob.Name ∧ r.Labels = plainCronJob.Labels) ∧
    (∃ r, (toUnstructured ⟨"apps", "v1"⟩ plainDeployment).bind
        (fun u => fromUnstructured ⟨"apps", "v1"⟩ "Deployment" (wireFields u)) = .ok r ∧
      r.Image = plainDeployment.Image ∧ r.Name = plainDeployment.Name ∧
      r.Labels = plainDeployment.Labels ∧ r.Replicas = plainDeployment.Replicas) := by
  refine ⟨rfl, rfl, ⟨_, rfl, ?_⟩, ⟨_, rfl, ?_⟩⟩
  · exact ⟨rfl, rfl, rfl, by decide⟩
  · exact ⟨rfl, rfl, by decide, by decide⟩

/-! ## Resource adapter -/

/-- The SpecPatch loop returns only when it has nothing to visit, and then it
leaves `base` as it is, provided `base` has no `spec` entry. -/
theorem applySpecPatch_eq_some (base b l : List (String × Value))
    (hb : GoMap.get base "spec" = none) (h : applySpecPatch base l = some b) : b = base := by
  cases l with
  | nil => simpa [applySpecPatch] using h.symm
  | cons e rest =>
    obtain ⟨k, v⟩ := e
    simp [applySpecPatch, hb] at h

/-- An object `toUnstructured` returns carries the metadata map built from the
entity's name and labels. -/
theorem toUnstructured_metadata (gv : GroupVersion) (c : CompatibleEngine)
    (u : List (String × Value)) (h : toUnstructured gv c = .ok u) :
    GoMap.get u "metadata" = some (.map [("name", .str c.Name), ("labels", .strMap c.Labels)]) := by
  unfold toUnstructured at h
  simp only at h
  split at h
  · exact absurd h (by simp)
  · rename_i b hb
    have hb' := applySpecPatch_eq_some _ _ _ (by simp [GoMap.get]) hb
    subst hb'
    split_ifs at h <;>
    · have hu := (Result.ok.inj h).symm
      subst hu
      simp [GoMap.set, GoMap.get]

/-- The frame of `Update` on a store from object name to generic object, for an
entity whose encoding returns.  When no object
is stored under the entity's name the store is unchanged and the call does not
succeed: it returns the not-found error whenever the encoding of the entity
returns.  When an object is stored under that name (carrying the name in its
metadata map) and the encoding returns `u`, the call succeeds and the object
stored under the name afterwards has the spec of `u` and the labels of `u` in
its metadata; every other top-level entry and every other metadata entry is the
one of the object before, and the objects under other names are untouched. -/
theorem update_frame (a : compatibleEngineAdapter)
    (store : List (String × List (String × Value))) (c : CompatibleEngine) :
    (clientGet store c.Name = none →
      (Update a store c).1 = store ∧ (Update a store c).2 ≠ .ok () ∧
      (∀ u, toUnstructured a.gvr.GroupVersion c = .ok u →
        (Update a store c).2 = .error "not found")) ∧
    (∀ existing u md, clientGet store c.Name = some existing →
      toUnstructured a.gvr.GroupVersion c = .ok u →
      GoMap.get existing "metadata" = some (.map md) →
      GoMap.get md "name" = some (.str c.Name) →
      ∃ obj md', (Update a store c).2 = .ok () ∧
        clientGet (Update a store c).1 c.Name = some obj ∧
        index obj "spec" = index u "spec" ∧
        GoMap.get obj "metadata" = some (.map md') ∧
        some (index md' "labels") = NestedFieldNoCopy (.map u) ["metadata", "labels"] ∧
        index md' "labels" = .strMap c.Labels ∧
        (∀ k, k ≠ "spec" → k ≠ "metadata" → GoMap.get obj k = GoMap.get existing k) ∧
        (∀ k, k ≠ "labels" → GoMap.get md' k = GoMap.get md k) ∧
        (∀ n, n ≠ c.Name → clientGet (Update a store c).1 n = clientGet store n)) := by
  constructor
  · intro hget
    unfold Update
    cases ht : toUnstructured a.gvr.GroupVersion c with
    | panicked => simp
    | error e => simp
    | ok u => simp [hget]
  · intro existing u md hget hu hmd hname
    have humd := toUnstructured_metadata _ _ _ hu
    have hmd1 : GoMap.get (GoMap.set existing "spec" (index u "spec")) "metadata"
        = some (.map md) := by
      rw [GoMap.get_set_ne _ _ _ _ (by decide)]
      exact hmd
    have hmerge : mergeInto existing u = some (GoMap.set
        (GoMap.set existing "spec" (index u "spec")) "metadata"
        (.map (GoMap.set md "labels" (.strMap c.Labels)))) := by
      unfold mergeInto
      simp only [hmd1, humd]
      simp [index, GoMap.get]
    have hn : NestedString (GoMap.set
        (GoMap.set existing "spec" (index u "spec")) "metadata"
        (.map (GoMap.set md "labels" (.strMap c.Labels)))) ["metadata", "name"] = c.Name := by
      have h1 : GoMap.get (GoMap.set md "labels" (.strMap c.Labels)) "name"
          = some (.str c.Name) := by
        rw [GoMap.get_set_ne _ _ _ _ (by decide)]
        exact hname
      simp [NestedString, NestedFieldNoCopy, GoMap.get_set_self, h1]
    have hget' : GoMap.get store c.Name = some existing := hget
    have hupd : Update a store c = (GoMap.set store c.Name (GoMap.set
        (GoMap.set existing "spec" (index u "spec")) "metadata"
        (.map (GoMap.set md "labels" (.strMap c.Labels)))), .ok ()) := by
      simp [Update, hu, hget, hmerge, clientUpdate, hn, hget']
    refine ⟨GoMap.set (GoMap.set existing "spec" (index u "spec")) "metadata"
        (.map (GoMap.set md "labels" (.strMap c.Labels))),
      GoMap.set md "labels" (.strMap c.Labels), ?_, ?_, ?_, ?_, ?_, ?_, ?_, ?_, ?_⟩
    · rw [hupd]
    · rw [hupd]
      simp [clientGet, GoMap.get_set_self]
    · simp [index, GoMap.get_set_ne _ _ _ _ (show "spec" ≠ "metadata" by decide),
        GoMap.get_set_self]
    · exact GoMap.get_set_self _ _ _
    · simp [NestedFieldNoCopy, humd, index, GoMap.get_set_self, GoMap.get]
    · simp [index, GoMap.get_set_self]
    · intro k hk1 hk2
      rw [GoMap.get_set_ne _ _ _ _ hk2, GoMap.get_set_ne _ _ _ _ hk1]
    · intro k hk
      rw [GoMap.get_set_ne _ _ _ _ hk]
    · intro n hn'
      rw [hupd]
      simp only [clientGet]
      rw [GoMap.get_set_ne _ _ _ _ hn']

/-- The frame of `Update` at concrete inputs: updating the stored object web keeps
its status and annotations, replaces its spec and labels, and leaves the object db alone;
updating a name the store does not hold fails and changes nothing. -/
theorem update_frame_witness :
    (Update deploymentAdapter storeWeb plainDeployment).2 = .ok () ∧
    (∃ obj, clientGet (Update deploymentAdapter storeWeb plainDeployment).1 "web" = some obj ∧
      NestedFieldNoCopy (.map obj) ["spec", "replicas"] = some (.int32 3) ∧
      NestedFieldNoCopy (.map obj) ["metadata", "labels"] = some (.strMap [("app", "web")]) ∧
      GoMap.get obj "status" = GoMap.get storedWeb "status" ∧
      NestedFieldNoCopy (.map obj) ["metadata", "annotations"]
        = some (.map [("owner", .str "team-a")])) ∧
    clientGet (Update deploymentAdapter storeWeb plainDeployment).1 "db"
      = clientGet storeWeb "db" ∧
    ((Update deploymentAdapter [] plainDeployment).1 = [] ∧
      (Update deploymentAdapter [] plainDeployment).2 ≠ .ok () ∧
      (∀ u, toUnstructured deploymentAdapter.gvr.GroupVersion plainDeployment = .ok u →
        (Update deploymentAdapter [] plainDeployment).2 = .error "not found")) :=
  ⟨rfl, ⟨_, rfl, rfl, rfl, rfl, rfl⟩, rfl,
    (update_frame deploymentAdapter [] plainDeployment).1 rfl⟩

/-- C10, at a failing input: for the Deployment with the SpecPatch {replicas: 5}
`Update` panics in the encoding, before it reads the store: on a store that
holds the object web it does not store the spec and labels of the entity, and
on the empty store it does not return the not-found error.  Both stores are
left as they were.  For the same entity without the SpecPatch, on the store
holding web, the call succeeds. -/
theorem update_panics_on_specPatch :
    clientGet storeWeb patchedDeployment.Name = some storedWeb ∧
    Update deploymentAdapter storeWeb patchedDeployment = (storeWeb, .panicked) ∧
    clientGet [] patchedDeployment.Name = none ∧
    Update deploymentAdapter [] patchedDeployment = ([], .panicked) ∧
    (Update deploymentAdapter storeWeb { patchedDeployment with SpecPatch := [] }).2 = .ok () :=
  ⟨rfl, rfl, rfl, rfl, rfl⟩

/-! ## Cache point operations -/

/-- On a cache whose `items` map is made, `Set(k, g)` returns and the cache then
answers `Get(k)` with `g` itself and found = true; `Get` of another kind answers
what it answered before; the loaded flag is untouched.  `Get` of a kind with no
entry answers found = false with the zero GVR, on every cache. -/
theorem cache_get_set (c : Cache) (m : List (String × GroupVersionResource))
    (hm : c.items = some m) (k k' : String) (g : GroupVersionResource) :
    ∃ c', c.Set k g = .ok c' ∧
      c'.Get k = (g, true) ∧
      (k' ≠ k → c'.Get k' = c.Get k') ∧
      (GoMap.get m k = none → c.Get k = (GroupVersionResource.zero, false)) ∧
      c'.loaded = c.loaded := by
  refine ⟨{ c with items := some (GoMap.set m k g) }, by simp [Cache.Set, hm], ?_, ?_, ?_, rfl⟩
  · simp [Cache.Get, GoMap.get_set_self]
  · intro h
    simp [Cache.Get, hm, GoMap.get_set_ne _ _ _ _ h]
  · intro h
    simp [Cache.Get, hm, h]

/-- C14, at a failing input: on the zero-value `Cache`, whose `items` map is nil,
`Set` panics, so no `Get` answers the GVR that was to be written; `Get` itself
answers found = false there.  On the start-up `GlobalGVRCache` the same `Set`
returns, `Get` of the kind then answers the GVR with found = true and `Get` of
another kind found = false. -/
theorem cache_set_panics_on_zero_value :
    zeroCache.Set "Deployment" ⟨"apps", "v1", "deployments"⟩ = .panicked ∧
    zeroCache.Get "Deployment" = (GroupVersionResource.zero, false) ∧
    (∃ c', GlobalGVRCache.Set "Deployment" ⟨"apps", "v1", "deployments"⟩ = .ok c' ∧
      c'.Get "Deployment" = (⟨"apps", "v1", "deployments"⟩, true) ∧
      c'.Get "Job" = (GroupVersionResource.zero, false)) :=
  ⟨by decide, by decide, ⟨_, rfl, by decide, by decide⟩⟩

/-- On the zero-value `Cache` a refresh that finds a served candidate panics at the
store into the nil map and leaves the cache as it was, `loaded` unset. -/
theorem refresh_panics_on_zero_value :
    Cache.Refresh zeroCache discoApps knownKindGVRs = (zeroCache, .panicked) := by
  decide

/-! ## Encoding without a SpecPatch -/

theorem range_nil {α : Type} : GoMap.range ([] : List (String × α)) = [] := by
  simp [GoMap.range, GoMap.keys]

/-- Without a SpecPatch `toUnstructured` is the header followed by the switch on
the kind. -/
theorem toUnstructured_of_noPatch (gv : GroupVersion) (c : CompatibleEngine)
    (h : c.SpecPatch = []) :
    toUnstructured gv c =
      if c.Kind = "Deployment" ∨ c.Kind = "StatefulSet" ∨ c.Kind = "DaemonSet" then
        .ok [ ("spec", .map
                [ ("replicas", .int32 c.Replicas),
                  ("selector", .map [("matchLabels", .strMap c.Labels)]),
                  ("template", podTemplate c) ]),
              ("apiVersion", .str (gv.Group ++ "/" ++ gv.Version)),
              ("kind", .str c.Kind),
              ("metadata", .map [("name", .str c.Name), ("labels", .strMap c.Labels)]) ]
      else if c.Kind = "Job" then
        .ok [ ("spec", .map [("template", podTemplate c), ("backoffLimit", .int32 4)]),
              ("apiVersion", .str (gv.Group ++ "/" ++ gv.Version)),
              ("kind", .str c.Kind),
              ("metadata", .map [("name", .str c.Name), ("labels", .strMap c.Labels)]) ]
      else if c.Kind = "CronJob" then
        .ok [ ("spec", .map
                [ ("schedule", .str "*/1 * * * *"),
                  ("jobTemplate", .map [("spec", .map [("template", podTemplate c)])]) ]),
              ("apiVersion", .str (gv.Group ++ "/" ++ gv.Version)),
              ("kind", .str c.Kind),
              ("metadata", .map [("name", .str c.Name), ("labels", .strMap c.Labels)]) ]
      else
        .ok [ ("apiVersion", .str (gv.Group ++ "/" ++ gv.Version)),
              ("kind", .str c.Kind),
              ("metadata", .map [("name", .str c.Name), ("labels", .strMap c.Labels)]) ] := by
  unfold toUnstructured
  rw [h, range_nil]
  simp only [applySpecPatch]
  split_ifs <;> simp [GoMap.set]

/-- C12: for an entity with no SpecPatch `toUnstructured` returns an object with
the apiVersion group/version, the entity's kind, the metadata map of name and
labels, and the spec of the kind's family: replicas, selector.matchLabels,
template for Deployment, StatefulSet and DaemonSet; template and backoffLimit 4
for Job; the schedule and jobTemplate.spec.template for CronJob; the template
holds the labels and the one container main with the entity's image.  The
object depends on the group-version, name, labels, replicas, image and kind
only. -/
theorem toUnstructured_shape (gv : GroupVersion) (c : CompatibleEngine)
    (h : c.SpecPatch = []) :
    ∃ u, toUnstructured gv c = .ok u ∧
      GoMap.get u "apiVersion" = some (.str (gv.Group ++ "/" ++ gv.Version)) ∧
      GoMap.get u "kind" = some (.str c.Kind) ∧
      GoMap.get u "metadata" = some (.map [("name", .str c.Name), ("labels", .strMap c.Labels)]) ∧
      ((c.Kind = "Deployment" ∨ c.Kind = "StatefulSet" ∨ c.Kind = "DaemonSet") →
        GoMap.get u "spec" = some (.map
          [ ("replicas", .int32 c.Replicas),
            ("selector", .map [("matchLabels", .strMap c.Labels)]),
            ("template", .map
              [ ("metadata", .map [("labels", .strMap c.Labels)]),
                ("spec", .map [("containers", .slice
                  [.map [("name", .str "main"), ("image", .str c.Image)]])]) ]) ])) ∧
      (c.Kind = "Job" →
        GoMap.get u "spec" = some (.map
          [ ("template", .map
              [ ("metadata", .map [("labels", .strMap c.Labels)]),
                ("spec", .map [("containers", .slice
                  [.map [("name", .str "main"), ("image", .str c.Image)]])]) ]),
            ("backoffLimit", .int32 4) ])) ∧
      (c.Kind = "CronJob" →
        GoMap.get u "spec" = some (.map
          [ ("schedule", .str "*/1 * * * *"),
            ("jobTemplate", .map [("spec", .map [("template", .map
              [ ("metadata", .map [("labels", .strMap c.Labels)]),
                ("spec", .map [("containers", .slice
                  [.map [("name", .str "main"), ("image", .str c.Image)]])]) ])])]) ])) ∧
      (∀ c' : CompatibleEngine, c'.SpecPatch = [] → c'.Name = c.Name → c'.Labels = c.Labels →
        c'.Replicas = c.Replicas → c'.Image = c.Image → c'.Kind = c.Kind →
        toUnstructured gv c' = .ok u) := by
  have key := toUnstructured_of_noPatch gv c h
  have same : ∀ c' : CompatibleEngine, c'.SpecPatch = [] → c'.Name = c.Name →
      c'.Labels = c.Labels → c'.Replicas = c.Replicas → c'.Image = c.Image →
      c'.Kind = c.Kind → toUnstructured gv c' = toUnstructured gv c := by
    intro c' h' h1 h2 h3 h4 h5
    rw [toUnstructured_of_noPatch gv c' h', key]
    simp [podTemplate, containerSpec, h1, h2, h3, h4, h5]
  by_cases h1 : c.Kind = "Deployment" ∨ c.Kind = "StatefulSet" ∨ c.Kind = "DaemonSet"
  · rw [if_pos h1] at key
    refine ⟨_, key, ?_, ?_, ?_, ?_, ?_, ?_, fun c' a b d e f g => (same c' a b d e f g).trans key⟩
    · simp [GoMap.get]
    · simp [GoMap.get]
    · simp [GoMap.get]
    · intro _
      simp [GoMap.get, podTemplate, containerSpec]
    · intro hj
      rw [hj] at h1
      simp at h1
    · intro hj
      rw [hj] at h1
      simp at h1
  · rw [if_neg h1] at key
    by_cases h2 : c.Kind = "Job"
    · rw [if_pos h2] at key
      refine ⟨_, key, ?_, ?_, ?_, ?_, ?_, ?_,
        fun c' a b d e f g => (same c' a b d e f g).trans key⟩
      · simp [GoMap.get]
      · simp [GoMap.get]
      · simp [GoMap.get]
      · intro hk
        exact absurd hk h1
      · intro _
        simp [GoMap.get, podTemplate, containerSpec]
      · intro hj
        rw [hj] at h2
        simp at h2
    · rw [if_neg h2] at key
      by_cases h3 : c.Kind = "CronJob"
      · rw [if_pos h3] at key
        refine ⟨_, key, ?_, ?_, ?_, ?_, ?_, ?_,
          fun c' a b d e f g => (same c' a b d e f g).trans key⟩
        · simp [GoMap.get]
        · simp [GoMap.get]
        · simp [GoMap.get]
        · intro hk
          exact absurd hk h1
        · intro hk
          exact absurd hk h2
        · intro _
          simp [GoMap.get, podTemplate, containerSpec]
      · rw [if_neg h3] at key
        refine ⟨_, key, ?_, ?_, ?_, ?_, ?_, ?_,
          fun c' a b d e f g => (same c' a b d e f g).trans key⟩
        · simp [GoMap.get]
        · simp [GoMap.get]
        · simp [GoMap.get]
        · intro hk
          exact absurd hk h1
        · intro hk
          exact absurd hk h2
        · intro hk
          exact absurd hk h3

/-- C12, at a concrete input: the Job entity with no SpecPatch is encoded with the
kind Job and the retry budget 4. -/
theorem toUnstructured_shape_witness :
    plainJob.SpecPatch = [] ∧
    ∃ u, toUnstructured ⟨"batch", "v1"⟩ plainJob = .ok u ∧
      GoMap.get u "kind" = some (.str "Job") ∧
      NestedFieldNoCopy (.map u) ["spec", "backoffLimit"] = some (.int32 4) ∧
      NestedFieldNoCopy (.map u) ["spec", "template", "spec", "containers"]
        = some (.slice [.map [("name", .str "main"), ("image", .str "busybox")]]) :=
  ⟨rfl, by
    obtain ⟨u, hu, _, hk, _, _, hj, _⟩ := toUnstructured_shape ⟨"batch", "v1"⟩ plainJob rfl
    exact ⟨u, hu, hk, by simp [NestedFieldNoCopy, hj rfl, GoMap.get],
      by simp [NestedFieldNoCopy, hj rfl, GoMap.get, plainJob]⟩⟩

/-! ## Schema fetch -/

theorem fetch_onceDone (s : SchemaState) (retrieve : String → String → FetchOutcome)
    (apiServer token : String) :
    (FetchOpenAPISchema s retrieve apiServer token).1.onceDone = true := by
  unfold FetchOpenAPISchema
  by_cases h : s.onceDone = true
  · simp [h]
  · simp only [h]
    cases retrieve (trimSuffixSlash apiServer ++ "/openapi/v2") token <;> simp

theorem fetch_of_done (s : SchemaState) (h : s.onceDone = true)
    (retrieve : String → String → FetchOutcome) (apiServer token : String) :
    FetchOpenAPISchema s retrieve apiServer token = (s, .ok (s.openAPISchemaCache, none)) := by
  simp [FetchOpenAPISchema, h]

theorem fetchState_of_done (s : SchemaState) (h : s.onceDone = true) (cs : List FetchCall) :
    fetchState s cs = s := by
  induction cs with
  | nil => rfl
  | cons c rest ih => simp [fetchState, fetch_of_done s h, ih]

theorem fetchResults_of_done (s : SchemaState) (h : s.onceDone = true) (cs : List FetchCall) :
    ∀ r ∈ fetchResults s cs, r = .ok (s.openAPISchemaCache, none) := by
  induction cs with
  | nil => simp [fetchResults]
  | cons c rest ih =>
    intro r hr
    simp only [fetchResults, fetch_of_done s h, List.mem_cons] at hr
    rcases hr with rfl | hr
    · rfl
    · exact ih r hr

theorem fetchAttempts_of_done (s : SchemaState) (h : s.onceDone = true) (cs : List FetchCall) :
    fetchAttempts s cs = 0 := by
  induction cs with
  | nil => rfl
  | cons c rest ih => simp [fetchAttempts, fetch_of_done s h, h, ih]

theorem fetchState_append (s : SchemaState) (cs cs' : List FetchCall) :
    fetchState s (cs ++ cs') = fetchState (fetchState s cs) cs' := by
  induction cs generalizing s with
  | nil => rfl
  | cons c rest ih => simp [fetchState, ih]

/-- In a state reached from start-up a cached document implies a fired gate. -/
theorem fetchState_initial_done (cs : List FetchCall) :
    (fetchState SchemaState.initial cs).openAPISchemaCache ≠ none →
      (fetchState SchemaState.initial cs).onceDone = true := by
  cases cs with
  | nil => simp [fetchState, SchemaState.initial]
  | cons c rest =>
    intro _
    simp only [fetchState]
    rw [fetchState_of_done _ (fetch_onceDone _ _ _ _)]
    exact fetch_onceDone _ _ _ _

/-- C15: in any sequence of `FetchOpenAPISchema` calls, from any state, at most one
call attempts the retrieval; once the gate has fired the state never changes
again and every call returns the cached document with no error, whatever its
arguments and the server's answer; so once a call has returned a document every
later call returns that document; and a document cached in a state reached from
start-up stays cached through any further calls. -/
theorem fetch_single_attempt (s : SchemaState) (c : FetchCall) (cs cs' : List FetchCall) :
    fetchAttempts s cs ≤ 1 ∧
    (s.onceDone = true →
      fetchState s cs = s ∧ ∀ r ∈ fetchResults s cs, r = .ok (s.openAPISchemaCache, none)) ∧
    (∀ doc, (FetchOpenAPISchema s c.retrieve c.apiServer c.token).2 = .ok (some doc, none) →
      (fetchState (FetchOpenAPISchema s c.retrieve c.apiServer c.token).1 cs).openAPISchemaCache
        = some doc ∧
      ∀ r ∈ fetchResults (FetchOpenAPISchema s c.retrieve c.apiServer c.token).1 cs,
        r = .ok (some doc, none)) ∧
    (∀ doc, (fetchState SchemaState.initial cs).openAPISchemaCache = some doc →
      (fetchState SchemaState.initial (cs ++ cs')).openAPISchemaCache = some doc) := by
  refine ⟨?_, fun h => ⟨fetchState_of_done s h cs, fetchResults_of_done s h cs⟩, ?_, ?_⟩
  · cases cs with
    | nil => simp [fetchAttempts]
    | cons c0 rest =>
      simp only [fetchAttempts]
      rw [fetchAttempts_of_done _ (fetch_onceDone _ _ _ _)]
      split <;> simp
  · intro doc hdoc
    have hdone := fetch_onceDone s c.retrieve c.apiServer c.token
    have hcache : (FetchOpenAPISchema s c.retrieve c.apiServer c.token).1.openAPISchemaCache
        = some doc := by
      unfold FetchOpenAPISchema at hdoc ⊢
      by_cases h : s.onceDone = true
      · simp only [h, if_true] at hdoc ⊢
        have := Result.ok.inj hdoc
        exact (Prod.mk.inj this).1
      · simp only [h] at hdoc ⊢
        cases hr : c.retrieve (trimSuffixSlash c.apiServer ++ "/openapi/v2") c.token with
        | requestInvalid => rw [hr] at hdoc; simp at hdoc
        | httpError e => rw [hr] at hdoc; simp at hdoc
        | decodeError e => rw [hr] at hdoc; simp at hdoc
        | decoded result =>
          rw [hr] at hdoc
          have := Result.ok.inj hdoc
          simpa using (Prod.mk.inj this).1
    constructor
    · rw [fetchState_of_done _ hdone, hcache]
    · intro r hr
      rw [fetchResults_of_done _ hdone cs r hr, hcache]
  · intro doc hdoc
    rw [fetchState_append, fetchState_of_done _ (fetchState_initial_done cs (by simp [hdoc]))]
    exact hdoc

/-- C15, at a concrete sequence: after a first call that fetched a document, a
second call against a server that now refuses returns the same document with no
error, and only one call attempted the retrieval. -/
theorem fetch_single_attempt_witness :
    fetchResults SchemaState.initial
        [⟨schemaServer, "https://plane/", "t"⟩, ⟨refusingServer, "https://other", "u"⟩]
      = [.ok (some schemaInline, none), .ok (some schemaInline, none)] ∧
    fetchAttempts SchemaState.initial
        [⟨schemaServer, "https://plane/", "t"⟩, ⟨refusingServer, "https://other", "u"⟩] ≤ 1 :=
  ⟨rfl, (fetch_single_attempt SchemaState.initial ⟨schemaServer, "", ""⟩
    [⟨schemaServer, "https://plane/", "t"⟩, ⟨refusingServer, "https://other", "u"⟩] []).1⟩

/-- C19, at a failing sequence: the first call meets a refusing server and returns
the error; the second call, the gate having fired, returns the nil document
together with a nil error, whether the server still refuses or would now
answer. -/
theorem fetch_after_failure_returns_neither :
    fetchResults SchemaState.initial
        [⟨refusingServer, "https://plane", "t"⟩, ⟨refusingServer, "https://plane", "t"⟩,
         ⟨schemaServer, "https://plane", "t"⟩]
      = [.ok (none, some "connection refused"), .ok (none, none), .ok (none, none)] := by
  rfl

/-! ## Decoding JSON-shaped objects -/

mutual
theorem deepCopy_of_shaped : ∀ v : Value, jsonShaped v = true → DeepCopyJSONValue v = .ok v
  | .map m, h => by
    have hm : fieldsShaped m = true := by simpa [jsonShaped] using h
    simp [DeepCopyJSONValue, copyFields_of_shaped m hm]
  | .slice l, h => by
    have hl : itemsShaped l = true := by simpa [jsonShaped] using h
    simp [DeepCopyJSONValue, copyItems_of_shaped l hl]
  | .null, _ => rfl
  | .str _, _ => rfl
  | .int64 _, _ => rfl
  | .float64 _, _ => rfl
  | .bool _, _ => rfl
  | .int32 _, h => by simp [jsonShaped] at h
  | .strMap _, h => by simp [jsonShaped] at h
theorem copyFields_of_shaped :
    ∀ m : List (String × Value), fieldsShaped m = true → copyFields m = .ok m
  | [], _ => rfl
  | (k, v) :: rest, h => by
    have h' : jsonShaped v = true ∧ fieldsShaped rest = true := by
      simpa [fieldsShaped] using h
    simp [copyFields, deepCopy_of_shaped v h'.1, copyFields_of_shaped rest h'.2]
theorem copyItems_of_shaped :
    ∀ l : List Value, itemsShaped l = true → copyItems l = .ok l
  | [], _ => rfl
  | v :: rest, h => by
    have h' : jsonShaped v = true ∧ itemsShaped rest = true := by
      simpa [itemsShaped] using h
    simp [copyItems, deepCopy_of_shaped v h'.1, copyItems_of_shaped rest h'.2]
end

theorem shaped_of_get (m : List (String × Value)) (k : String) (v : Value)
    (h : fieldsShaped m = true) (hg : GoMap.get m k = some v) : jsonShaped v = true := by
  induction m with
  | nil => simp [GoMap.get] at hg
  | cons e rest ih =>
    obtain ⟨a, w⟩ := e
    have h' : jsonShaped w = true ∧ fieldsShaped rest = true := by
      simpa [fieldsShaped] using h
    by_cases hak : a = k
    · simp [GoMap.get, hak] at hg
      rw [← hg]
      exact h'.1
    · simp [GoMap.get, hak] at hg
      exact ih h'.2 hg

theorem shaped_of_nested (fields : List String) (v w : Value) (h : jsonShaped v = true)
    (hn : NestedFieldNoCopy v fields = some w) : jsonShaped w = true := by
  induction fields generalizing v with
  | nil =>
    simp [NestedFieldNoCopy] at hn
    rw [← hn]
    exact h
  | cons f rest ih =>
    cases v with
    | map m =>
      simp only [NestedFieldNoCopy] at hn
      cases hg : GoMap.get m f with
      | none => rw [hg] at hn; simp at hn
      | some x =>
        rw [hg] at hn
        exact ih x (shaped_of_get m f x (by simpa [jsonShaped] using h) hg) hn
    | null => simp [NestedFieldNoCopy] at hn
    | str _ => simp [NestedFieldNoCopy] at hn
    | int64 _ => simp [NestedFieldNoCopy] at hn
    | int32 _ => simp [NestedFieldNoCopy] at hn
    | float64 _ => simp [NestedFieldNoCopy] at hn
    | bool _ => simp [NestedFieldNoCopy] at hn
    | strMap _ => simp [NestedFieldNoCopy] at hn
    | slice _ => simp [NestedFieldNoCopy] at hn

theorem nestedMap_of_shaped (u : List (String × Value)) (fields : List String)
    (h : fieldsShaped u = true) : NestedMap u fields = .ok (mapAt u fields) := by
  unfold NestedMap mapAt
  cases hm : nestedMapNoCopy u fields with
  | none => rfl
  | some m =>
    have hs : jsonShaped (.map m) = true := by
      unfold nestedMapNoCopy at hm
      cases hn : NestedFieldNoCopy (.map u) fields with
      | none => rw [hn] at hm; simp at hm
      | some w =>
        rw [hn] at hm
        cases w <;> simp at hm
        subst hm
        exact shaped_of_nested fields (.map u) _ (by simpa [jsonShaped] using h) hn
    simp [deepCopy_of_shaped _ hs]

theorem nestedSlice_of_shaped (u : List (String × Value)) (fields : List String)
    (h : fieldsShaped u = true) : NestedSlice u fields = .ok (sliceAt u fields) := by
  unfold NestedSlice sliceAt
  cases hn : NestedFieldNoCopy (.map u) fields with
  | none => rfl
  | some w =>
    have hs := shaped_of_nested fields (.map u) w (by simpa [jsonShaped] using h) hn
    cases w <;> simp
    simp [deepCopy_of_shaped _ hs]

/-- On a JSON-shaped object `fromUnstructured` returns, and the entity is made of
the values the accessors find. -/
theorem fromUnstructured_of_shaped (gv : GroupVersion) (kind : String)
    (u : List (String × Value)) (h : fieldsShaped u = true) :
    fromUnstructured gv kind u = .ok
      { Name := NestedString u ["metadata", "name"]
        Labels := NestedStringMap u ["metadata", "labels"]
        Replicas := toInt32 (NestedInt64 u ["spec", "replicas"])
        Image := firstImage (sliceAt u ["spec", "template", "spec", "containers"])
        Kind := kind
        APIVersions := NestedStringSlice u ["apiVersion"]
        Spec := mapAt u ["spec"]
        Status := mapAt u ["status"]
        Metadata :=
          [ ("annotations", .strMap (NestedStringMap u ["metadata", "annotations"])),
            ("ownerReferences", .slice (sliceAt u ["metadata", "ownerReferences"])),
            ("creationTimestamp", .str (NestedString u ["metadata", "creationTimestamp"])) ]
        SpecPatch := [] } := by
  unfold fromUnstructured
  simp only [nestedMap_of_shaped u _ h, nestedSlice_of_shaped u _ h]

theorem toInt32_of_range (n : Int) (h1 : -2 ^ 31 ≤ n) (h2 : n < 2 ^ 31) : toInt32 n = n := by
  unfold toInt32
  omega

theorem get_filterMap_keys {α : Type} (g : String → Option α) (ks : List String) (k : String) :
    GoMap.get (ks.filterMap (fun k' => (g k').map (fun v => (k', v)))) k =
      if k ∈ ks then g k else none := by
  induction ks with
  | nil => simp [GoMap.get]
  | cons a rest ih =>
    by_cases hak : a = k
    · subst hak
      cases hg : g a with
      | none => simp [List.filterMap_cons, hg, ih]
      | some v => simp [List.filterMap_cons, hg, GoMap.get]
    · have hka : ¬ k = a := fun h' => hak h'.symm
      cases hg : g a with
      | none => simp [List.filterMap_cons, hg, ih, hka]
      | some v => simp [List.filterMap_cons, hg, GoMap.get, hak, ih, hka]

/-- Iterating a map visits the binding a lookup finds. -/
theorem get_range {α : Type} (m : List (String × α)) (k : String) :
    GoMap.get (GoMap.range m) k = GoMap.get m k := by
  unfold GoMap.range
  rw [get_filterMap_keys]
  by_cases hk : k ∈ GoMap.keys m
  · rw [if_pos hk]
  · rw [if_neg hk]
    rw [GoMap.mem_keys] at hk
    cases hg : GoMap.get m k with
    | none => rfl
    | some v => simp [hg] at hk

theorem mem_range {α : Type} (m : List (String × α)) (k : String) (v : α)
    (h : (k, v) ∈ GoMap.range m) : GoMap.get m k = some v := by
  unfold GoMap.range at h
  rw [List.mem_filterMap] at h
  obtain ⟨k', _, hk'⟩ := h
  cases hg : GoMap.get m k' with
  | none => rw [hg] at hk'; simp at hk'
  | some w =>
    rw [hg] at hk'
    simp at hk'
    rw [← hk'.1, ← hk'.2]
    exact hg

theorem range_mem_of_get {α : Type} (m : List (String × α)) (k : String) (v : α)
    (h : GoMap.get m k = some v) : (k, v) ∈ GoMap.range m := by
  unfold GoMap.range
  rw [List.mem_filterMap]
  exact ⟨k, (GoMap.mem_keys m k).mpr (by simp [h]), by simp [h]⟩

theorem allStrings_eq_some (l : List Value) (ss : List String) (h : allStrings l = some ss) :
    l = ss.map Value.str := by
  induction l generalizing ss with
  | nil =>
    simp [allStrings] at h
    subst h
    rfl
  | cons v rest ih =>
    cases v with
    | str s =>
      simp only [allStrings] at h
      cases hr : allStrings rest with
      | none => rw [hr] at h; simp at h
      | some ss' =>
        rw [hr] at h
        simp at h
        subst h
        simp [ih ss' hr]
    | null => simp [allStrings] at h
    | int64 _ => simp [allStrings] at h
    | int32 _ => simp [allStrings] at h
    | float64 _ => simp [allStrings] at h
    | bool _ => simp [allStrings] at h
    | strMap _ => simp [allStrings] at h
    | map _ => simp [allStrings] at h
    | slice _ => simp [allStrings] at h

theorem allStrings_of_forall (l : List Value) (h : ∀ v ∈ l, ∃ s, v = Value.str s) :
    ∃ ss, allStrings l = some ss := by
  induction l with
  | nil => exact ⟨[], rfl⟩
  | cons v rest ih =>
    obtain ⟨s, rfl⟩ := h v (List.mem_cons_self _ _)
    obtain ⟨ss, hss⟩ := ih (fun w hw => h w (List.mem_cons_of_mem _ hw))
    exact ⟨s :: ss, by simp [allStrings, hss]⟩

theorem get_zip_strings (R : List (String × Value)) (ss : List String)
    (h : R.map Prod.snd = ss.map Value.str) (k s : String) :
    GoMap.get ((R.map Prod.fst).zip ss) k = some s ↔ GoMap.get R k = some (.str s) := by
  induction R generalizing ss with
  | nil => simp [GoMap.get]
  | cons e rest ih =>
    obtain ⟨a, v⟩ := e
    cases ss with
    | nil => simp at h
    | cons s0 ss' =>
      simp only [List.map_cons, List.cons.injEq] at h
      obtain ⟨hv, hrest⟩ := h
      subst hv
      by_cases hak : a = k
      · simp [GoMap.get, hak]
      · have := ih ss' hrest
        simpa [GoMap.get, hak] using this

/-- A labels map all of whose values are strings is read entry by entry. -/
theorem nestedStringMap_get (u : List (String × Value)) (fields : List String)
    (m : List (String × Value)) (hm : NestedFieldNoCopy (.map u) fields = some (.map m))
    (hs : ∀ k v, GoMap.get m k = some v → ∃ s, v = Value.str s) (k s : String) :
    GoMap.get (NestedStringMap u fields) k = some s ↔ GoMap.get m k = some (.str s) := by
  have hall : ∀ v ∈ (GoMap.range m).map Prod.snd, ∃ s, v = Value.str s := by
    intro v hv
    obtain ⟨e, he, rfl⟩ := List.mem_map.mp hv
    exact hs e.1 e.2 (mem_range m e.1 e.2 he)
  obtain ⟨ss, hss⟩ := allStrings_of_forall _ hall
  have hR := allStrings_eq_some _ _ hss
  simp only [NestedStringMap, nestedMapNoCopy, hm, hss]
  rw [get_zip_strings _ _ hR, get_range]

/-- A labels entry that is missing or not a map gives the empty map. -/
theorem nestedStringMap_of_not_map (u : List (String × Value)) (fields : List String)
    (h : ∀ m, NestedFieldNoCopy (.map u) fields ≠ some (.map m)) :
    NestedStringMap u fields = [] := by
  have hn : nestedMapNoCopy u fields = none := by
    unfold nestedMapNoCopy
    cases hv : NestedFieldNoCopy (.map u) fields with
    | none => rfl
    | some w =>
      cases w <;> simp
      exact absurd hv (h _)
  simp [NestedStringMap, hn]

/-- A labels map holding a value that is not a string gives the empty map. -/
theorem nestedStringMap_of_bad_value (u : List (String × Value)) (fields : List String)
    (m : List (String × Value)) (hm : NestedFieldNoCopy (.map u) fields = some (.map m))
    (k : String) (v : Value) (hg : GoMap.get m k = some v) (hv : ∀ s, v ≠ Value.str s) :
    NestedStringMap u fields = [] := by
  simp only [NestedStringMap, nestedMapNoCopy, hm]
  cases hss : allStrings ((GoMap.range m).map Prod.snd) with
  | none => rfl
  | some ss =>
    exfalso
    have hR := allStrings_eq_some _ _ hss
    have hmem : v ∈ (GoMap.range m).map Prod.snd :=
      List.mem_map.mpr ⟨(k, v), range_mem_of_get m k v hg, rfl⟩
    rw [hR] at hmem
    obtain ⟨s, _, hs⟩ := List.mem_map.mp hmem
    exact hv s hs.symm

theorem nestedString_of_str (u : List (String × Value)) (fields : List String) (s : String)
    (h : NestedFieldNoCopy (.map u) fields = some (.str s)) : NestedString u fields = s := by
  simp [NestedString, h]

theorem nestedString_of_not_str (u : List (String × Value)) (fields : List String)
    (h : ∀ s, NestedFieldNoCopy (.map u) fields ≠ some (.str s)) : NestedString u fields = "" := by
  unfold NestedString
  cases hv : NestedFieldNoCopy (.map u) fields with
  | none => rfl
  | some w =>
    cases w <;> simp
    exact absurd hv (h _)

theorem nestedInt64_of_int64 (u : List (String × Value)) (fields : List String) (n : Int)
    (h : NestedFieldNoCopy (.map u) fields = some (.int64 n)) : NestedInt64 u fields = n := by
  simp [NestedInt64, h]

theorem nestedInt64_of_not_int64 (u : List (String × Value)) (fields : List String)
    (h : ∀ n, NestedFieldNoCopy (.map u) fields ≠ some (.int64 n)) : NestedInt64 u fields = 0 := by
  unfold NestedInt64
  cases hv : NestedFieldNoCopy (.map u) fields with
  | none => rfl
  | some w =>
    cases w <;> simp
    exact absurd hv (h _)

theorem firstImage_sliceAt_of_image (u : List (String × Value)) (fields : List String)
    (cMap : List (String × Value)) (rest : List Value) (img : String)
    (h : NestedFieldNoCopy (.map u) fields = some (.slice (.map cMap :: rest)))
    (hi : GoMap.get cMap "image" = some (.str img)) :
    firstImage (sliceAt u fields) = img := by
  simp [sliceAt, h, firstImage, hi]

theorem firstImage_sliceAt_default (u : List (String × Value)) (fields : List String)
    (h : ∀ cMap rest img, NestedFieldNoCopy (.map u) fields = some (.slice (.map cMap :: rest)) →
      GoMap.get cMap "image" ≠ some (.str img)) :
    firstImage (sliceAt u fields) = "" := by
  unfold sliceAt
  cases hv : NestedFieldNoCopy (.map u) fields with
  | none => rfl
  | some w =>
    cases w with
    | slice l =>
      cases l with
      | nil => rfl
      | cons c rest =>
        cases c with
        | map cMap =>
          simp only [firstImage]
          cases hg : GoMap.get cMap "image" with
          | none => rfl
          | some x =>
            cases x with
            | str img => exact absurd hg (h cMap rest img hv)
            | null => rfl
            | int64 _ => rfl
            | int32 _ => rfl
            | float64 _ => rfl
            | bool _ => rfl
            | strMap _ => rfl
            | map _ => rfl
            | slice _ => rfl
        | null => rfl
        | str _ => rfl
        | int64 _ => rfl
        | int32 _ => rfl
        | float64 _ => rfl
        | bool _ => rfl
        | strMap _ => rfl
        | slice _ => rfl
    | null => rfl
    | str _ => rfl
    | int64 _ => rfl
    | int32 _ => rfl
    | float64 _ => rfl
    | bool _ => rfl
    | strMap _ => rfl
    | map _ => rfl

/-- C13: on every JSON-shaped object, for every kind, `fromUnstructured` returns an
entity and no error, and the entity's Kind is the kind argument.  Name is the
string at metadata.name and "" when there is none; Replicas is the int64 at
spec.replicas converted to int32 (the number itself within the int32 range) and
0 when there is none; Labels reads the map at metadata.labels entry by entry
when all its values are strings, and is empty when the entry is missing, not a
map, or holds a value that is not a string; Image is the image string of the
first container at spec.template.spec.containers and "" when there is none;
Spec is the map at spec. -/
theorem fromUnstructured_total (gv : GroupVersion) (kind : String)
    (u : List (String × Value)) (h : fieldsShaped u = true) :
    ∃ r, fromUnstructured gv kind u = .ok r ∧ r.Kind = kind ∧
      (∀ s, NestedFieldNoCopy (.map u) ["metadata", "name"] = some (.str s) → r.Name = s) ∧
      ((∀ s, NestedFieldNoCopy (.map u) ["metadata", "name"] ≠ some (.str s)) → r.Name = "") ∧
      (∀ n, NestedFieldNoCopy (.map u) ["spec", "replicas"] = some (.int64 n) →
        r.Replicas = toInt32 n ∧ (-2 ^ 31 ≤ n → n < 2 ^ 31 → r.Replicas = n)) ∧
      ((∀ n, NestedFieldNoCopy (.map u) ["spec", "replicas"] ≠ some (.int64 n)) →
        r.Replicas = 0) ∧
      (∀ m, NestedFieldNoCopy (.map u) ["metadata", "labels"] = some (.map m) →
        (∀ k v, GoMap.get m k = some v → ∃ s, v = Value.str s) →
        ∀ k s, GoMap.get r.Labels k = some s ↔ GoMap.get m k = some (.str s)) ∧
      ((∀ m, NestedFieldNoCopy (.map u) ["metadata", "labels"] ≠ some (.map m)) →
        r.Labels = []) ∧
      (∀ m k v, NestedFieldNoCopy (.map u) ["metadata", "labels"] = some (.map m) →
        GoMap.get m k = some v → (∀ s, v ≠ Value.str s) → r.Labels = []) ∧
      (∀ cMap rest img,
        NestedFieldNoCopy (.map u) ["spec", "template", "spec", "containers"]
          = some (.slice (.map cMap :: rest)) →
        GoMap.get cMap "image" = some (.str img) → r.Image = img) ∧
      ((∀ cMap rest img,
        NestedFieldNoCopy (.map u) ["spec", "template", "spec", "containers"]
          = some (.slice (.map cMap :: rest)) →
        GoMap.get cMap "image" ≠ some (.str img)) → r.Image = "") ∧
      (∀ m, NestedFieldNoCopy (.map u) ["spec"] = some (.map m) → r.Spec = m) ∧
      ((∀ m, NestedFieldNoCopy (.map u) ["spec"] ≠ some (.map m)) → r.Spec = []) := by
  refine ⟨_, fromUnstructured_of_shaped gv kind u h, rfl, ?_, ?_, ?_, ?_, ?_, ?_, ?_, ?_, ?_,
    ?_, ?_⟩
  · intro s hs
    exact nestedString_of_str u _ s hs
  · intro hs
    exact nestedString_of_not_str u _ hs
  · intro n hn
    have hr : NestedInt64 u ["spec", "replicas"] = n := nestedInt64_of_int64 u _ n hn
    refine ⟨by simp only [hr], fun h1 h2 => ?_⟩
    simp only [hr]
    exact toInt32_of_range n h1 h2
  · intro hn
    simp only [nestedInt64_of_not_int64 u _ hn]
    rfl
  · intro m hm hs k s
    exact nestedStringMap_get u _ m hm hs k s
  · intro hm
    exact nestedStringMap_of_not_map u _ hm
  · intro m k v hm hg hv
    exact nestedStringMap_of_bad_value u _ m hm k v hg hv
  · intro cMap rest img hc hi
    exact firstImage_sliceAt_of_image u _ cMap rest img hc hi
  · intro hc
    exact firstImage_sliceAt_default u _ hc
  · intro m hm
    simp [mapAt, nestedMapNoCopy, hm]
  · intro hm
    simp only [mapAt, nestedMapNoCopy]
    rfl

/-- C13, at concrete inputs: the empty object and an object with a misshapen
metadata, spec and status decode to the zero entity of the kind, and the stored
object web decodes to its name, labels, replicas and kind. -/
theorem fromUnstructured_total_witness :
    (∃ r, fromUnstructured ⟨"apps", "v1"⟩ "Deployment" [] = .ok r ∧ r.Kind = "Deployment" ∧
      r.Name = "" ∧ r.Labels = [] ∧ r.Replicas = 0 ∧ r.Image = "") ∧
    (∃ r, fromUnstructured ⟨"apps", "v1"⟩ "Job" misshapenObject = .ok r ∧ r.Kind = "Job" ∧
      r.Name = "" ∧ r.Labels = [] ∧ r.Replicas = 0 ∧ r.Image = "") ∧
    (∃ r, fromUnstructured ⟨"apps", "v1"⟩ "Deployment" storedWeb = .ok r ∧
      r.Kind = "Deployment" ∧ r.Name = "web" ∧ r.Labels = [("app", "old")] ∧ r.Replicas = 1) := by
  refine ⟨?_, ⟨_, rfl, rfl, rfl, rfl, by decide, rfl⟩, ⟨_, rfl, rfl, rfl, by decide, by decide⟩⟩
  obtain ⟨r, hr, hk, _, hn, _, hrep, _, hl, _, _, hi, _⟩ :=
    fromUnstructured_total ⟨"apps", "v1"⟩ "Deployment" [] rfl
  exact ⟨r, hr, hk, hn (by simp [NestedFieldNoCopy, GoMap.get]),
    hl (by simp [NestedFieldNoCopy, GoMap.get]),
    hrep (by simp [NestedFieldNoCopy, GoMap.get]),
    hi (by simp [NestedFieldNoCopy, GoMap.get])⟩

/-! ## Watch -/

/-- C16: on a feed whose events all carry JSON-shaped generic objects the listener
loop ends normally and invokes the callback once per event, in feed order, with
the event's type and the entity `fromUnstructured` decodes from its object. -/
theorem watchLoop_in_order (a : compatibleEngineAdapter) (evs : List WatchEvent)
    (h : ∀ ev ∈ evs, ∃ u, ev.Object = .unstructured u ∧ fieldsShaped u = true) :
    (watchLoop a evs).2 = .ok () ∧
    (watchLoop a evs).1.length = evs.length ∧
    List.Forall₂
      (fun ev cb => cb.1 = ev.EventType ∧
        ∃ u, ev.Object = .unstructured u ∧
          fromUnstructured a.gvr.GroupVersion a.kind u = .ok cb.2)
      evs (watchLoop a evs).1 := by
  induction evs with
  | nil => exact ⟨rfl, rfl, List.Forall₂.nil⟩
  | cons ev rest ih =>
    obtain ⟨u, hu, hs⟩ := h ev (List.mem_cons_self _ _)
    obtain ⟨ih1, ih2, ih3⟩ := ih (fun e he => h e (List.mem_cons_of_mem _ he))
    have hd := fromUnstructured_of_shaped a.gvr.GroupVersion a.kind u hs
    simp only [watchLoop, hu, hd]
    refine ⟨ih1, by simp [ih2], List.Forall₂.cons ⟨rfl, u, hu, hd⟩ ih3⟩

/-- C16, at the feed of the specification: the events added, modified, deleted of
one object give three callbacks, in that order, each with the decoded object. -/
theorem watchLoop_in_order_witness :
    (watchLoop deploymentAdapter feedWeb).1.map Prod.fst = ["ADDED", "MODIFIED", "DELETED"] ∧
    (watchLoop deploymentAdapter feedWeb).1.map (fun cb => cb.2.Name) = ["web", "web", "web"] ∧
    (watchLoop deploymentAdapter feedWeb).2 = .ok () ∧
    (watchLoop deploymentAdapter feedWeb).1.length = feedWeb.length :=
  ⟨by decide, by decide,
    (watchLoop_in_order deploymentAdapter feedWeb (by
      intro ev hev
      simp only [feedWeb, List.mem_cons, List.mem_singleton, List.not_mem_nil, or_false] at hev
      rcases hev with rfl | rfl | rfl <;> exact ⟨storedWeb, rfl, rfl⟩)).1,
    rfl⟩

/-! ## Decoded API versions -/

/-- An `apiVersion` header that is a string is not a slice, so the slice accessor
finds nothing. -/
theorem nestedStringSlice_of_str (u : List (String × Value)) (s : String)
    (h : GoMap.get u "apiVersion" = some (.str s)) :
    NestedStringSlice u ["apiVersion"] = [] := by
  simp [NestedStringSlice, NestedFieldNoCopy, h]

/-- C18, at a failing input: the stored object web has the apiVersion header
apps/v1, and the entity decoded from it has an empty APIVersions list; so has
the entity decoded from the wire form of an encoded Deployment. -/
theorem fromUnstructured_apiVersions_empty :
    GoMap.get storedWeb "apiVersion" = some (.str "apps/v1") ∧
    (∃ r, fromUnstructured ⟨"apps", "v1"⟩ "Deployment" storedWeb = .ok r ∧
      r.APIVersions = [] ∧ "apps/v1" ∉ r.APIVersions) ∧
    (∃ r, (toUnstructured ⟨"apps", "v1"⟩ plainDeployment).bind
        (fun u => fromUnstructured ⟨"apps", "v1"⟩ "Deployment" (wireFields u)) = .ok r ∧
      r.APIVersions = []) := by
  refine ⟨rfl, ⟨_, rfl, rfl, ?_⟩, ⟨_, rfl, rfl⟩⟩
  show "apps/v1" ∉ ([] : List String)
  simp

/-! ## The CronJob image -/

theorem fieldsShaped_strings (m : List (String × String)) :
    fieldsShaped (m.map (fun x => (x.1, Value.str x.2))) = true := by
  induction m with
  | nil => rfl
  | cons e rest ih => simpa [fieldsShaped, jsonShaped] using ih

mutual
theorem wireValue_shaped : ∀ v : Value, jsonShaped (wireValue v) = true
  | .int32 _ => rfl
  | .strMap [] => rfl
  | .strMap (e :: m) => by
    simp only [wireValue, jsonShaped]
    exact fieldsShaped_strings (e :: m)
  | .map m => by
    simp only [wireValue, jsonShaped]
    exact wireFields_shaped m
  | .slice l => by
    simp only [wireValue, jsonShaped]
    exact wireItems_shaped l
  | .null => rfl
  | .str _ => rfl
  | .int64 _ => rfl
  | .float64 _ => rfl
  | .bool _ => rfl
theorem wireFields_shaped : ∀ m : List (String × Value), fieldsShaped (wireFields m) = true
  | [] => rfl
  | (k, v) :: rest => by
    simp [wireFields, fieldsShaped, wireValue_shaped v, wireFields_shaped rest]
theorem wireItems_shaped : ∀ l : List Value, itemsShaped (wireItems l) = true
  | [] => rfl
  | v :: rest => by
    simp [wireItems, itemsShaped, wireValue_shaped v, wireItems_shaped rest]
end

/-- On the wire form: for a CronJob entity with no SpecPatch the encoded object holds
the container list under spec.jobTemplate.spec.template.spec.containers and
nothing under spec.template, and the entity decoded from the wire form of the
object has an empty Image, whatever the entity's image. -/
theorem cronJob_image_lost_on_wire (gv : GroupVersion) (c : CompatibleEngine)
    (hk : c.Kind = "CronJob") (hp : c.SpecPatch = []) :
    ∃ u, toUnstructured gv c = .ok u ∧
      NestedFieldNoCopy (.map u) ["spec", "template"] = none ∧
      NestedFieldNoCopy (.map u) ["spec", "jobTemplate", "spec", "template", "spec", "containers"]
        = some (.slice [.map [("name", .str "main"), ("image", .str c.Image)]]) ∧
      ∃ r, fromUnstructured gv "CronJob" (wireFields u) = .ok r ∧ r.Image = "" := by
  have key := toUnstructured_of_noPatch gv c hp
  simp only [hk] at key
  refine ⟨_, key, ?_, ?_, _, fromUnstructured_of_shaped gv "CronJob" _ (wireFields_shaped _), ?_⟩
  · simp [NestedFieldNoCopy, GoMap.get]
  · simp [NestedFieldNoCopy, GoMap.get, podTemplate, containerSpec]
  · simp [sliceAt, wireFields, wireValue, NestedFieldNoCopy, GoMap.get, firstImage]

/-- On the wire form, at a concrete input: the CronJob entity with the
image nginx is encoded with its container under jobTemplate, and the entity
decoded from the wire form has an empty Image. -/
theorem cronJob_image_lost_on_wire_witness :
    plainCronJob.Kind = "CronJob" ∧ plainCronJob.SpecPatch = [] ∧
    plainCronJob.Image = "nginx" ∧
    ∃ u, toUnstructured ⟨"batch", "v1"⟩ plainCronJob = .ok u ∧
      NestedFieldNoCopy (.map u) ["spec", "template"] = none ∧
      NestedFieldNoCopy (.map u) ["spec", "jobTemplate", "spec", "template", "spec", "containers"]
        = some (.slice [.map [("name", .str "main"), ("image", .str plainCronJob.Image)]]) ∧
      ∃ r, fromUnstructured ⟨"batch", "v1"⟩ "CronJob" (wireFields u) = .ok r ∧ r.Image = "" :=
  ⟨rfl, rfl, rfl, cronJob_image_lost_on_wire ⟨"batch", "v1"⟩ plainCronJob rfl rfl⟩

/-- C17, at a failing input: for the CronJob entity with the image nginx the direct
round trip returns no entity, hence no empty Image: decoding the object
`toUnstructured` built panics in the deep copy of its spec.  On the wire form
of the object decoding returns and the decoded Image is empty. -/
theorem cronJob_roundTrip_no_entity :
    (toUnstructured ⟨"batch", "v1"⟩ plainCronJob).bind
      (fromUnstructured ⟨"batch", "v1"⟩ "CronJob") = .panicked ∧
    (¬ ∃ r, (toUnstructured ⟨"batch", "v1"⟩ plainCronJob).bind
      (fromUnstructured ⟨"batch", "v1"⟩ "CronJob") = .ok r ∧ r.Image = "") ∧
    (∃ r, (toUnstructured ⟨"batch", "v1"⟩ plainCronJob).bind
        (fun u => fromUnstructured ⟨"batch", "v1"⟩ "CronJob" (wireFields u)) = .ok r ∧
      r.Image = "") := by
  have h : (toUnstructured ⟨"batch", "v1"⟩ plainCronJob).bind
      (fromUnstructured ⟨"batch", "v1"⟩ "CronJob") = .panicked := rfl
  refine ⟨h, ?_, ⟨_, rfl, rfl⟩⟩
  rintro ⟨r, hr, _⟩
  rw [h] at hr
  exact Result.noConfusion hr

/-! ## Upsert -/

theorem nestedString_name (obj md : List (String × Value)) (n : String)
    (h : GoMap.get obj "metadata" = some (.map md))
    (hn : GoMap.get md "name" = some (.str n)) :
    NestedString obj ["metadata", "name"] = n := by
  simp [NestedString, NestedFieldNoCopy, h, hn]

/-- The merge of an encoded entity into a fetched object that has a metadata map. -/
theorem mergeInto_eq (existing u md : List (String × Value)) (c : CompatibleEngine)
    (hmd : GoMap.get existing "metadata" = some (.map md))
    (humd : GoMap.get u "metadata"
      = some (.map [("name", .str c.Name), ("labels", .strMap c.Labels)])) :
    mergeInto existing u = some (GoMap.set
      (GoMap.set existing "spec" (index u "spec")) "metadata"
      (.map (GoMap.set md "labels" (.strMap c.Labels)))) := by
  have hmd1 : GoMap.get (GoMap.set existing "spec" (index u "spec")) "metadata"
      = some (.map md) := by
    rw [GoMap.get_set_ne _ _ _ _ (by decide)]
    exact hmd
  unfold mergeInto
  simp only [hmd1, humd]
  simp [index, GoMap.get]

theorem toUnstructured_ok_of_noPatch (gv : GroupVersion) (c : CompatibleEngine)
    (h : c.SpecPatch = []) : ∃ u, toUnstructured gv c = .ok u := by
  rw [toUnstructured_of_noPatch gv c h]
  split_ifs <;> exact ⟨_, rfl⟩

/-- One `Create` of an entity with no SpecPatch, on a store whose object under the
entity's name, if any, carries that name in its metadata map: the call succeeds
and the object stored under the name afterwards has the spec and labels of the
encoded entity and carries the name. -/
theorem create_step (a : compatibleEngineAdapter)
    (store : List (String × List (String × Value))) (c : CompatibleEngine)
    (hp : c.SpecPatch = [])
    (hw : ∀ existing, clientGet store c.Name = some existing →
      ∃ md, GoMap.get existing "metadata" = some (.map md) ∧
        GoMap.get md "name" = some (.str c.Name)) :
    ∃ u obj md', toUnstructured a.gvr.GroupVersion c = .ok u ∧
      (Create a store c).2 = .ok () ∧
      clientGet (Create a store c).1 c.Name = some obj ∧
      index obj "spec" = index u "spec" ∧
      GoMap.get obj "metadata" = some (.map md') ∧
      GoMap.get md' "name" = some (.str c.Name) ∧
      index md' "labels" = .strMap c.Labels ∧
      (∀ n, n ≠ c.Name → clientGet (Create a store c).1 n = clientGet store n) := by
  obtain ⟨u, hu⟩ := toUnstructured_ok_of_noPatch a.gvr.GroupVersion c hp
  have humd := toUnstructured_metadata _ _ _ hu
  have hname : NestedString u ["metadata", "name"] = c.Name :=
    nestedString_name u _ c.Name humd (by simp [GoMap.get])
  cases hg : clientGet store c.Name with
  | none =>
    have hg' : GoMap.get store c.Name = none := hg
    have hc : Create a store c = (GoMap.set store c.Name u, .ok ()) := by
      simp [Create, hu, hg, clientCreate, hname, hg']
    refine ⟨u, u, [("name", .str c.Name), ("labels", .strMap c.Labels)], hu, by rw [hc], ?_,
      rfl, humd, by simp [GoMap.get], by simp [index, GoMap.get], ?_⟩
    · rw [hc]
      simp [clientGet, GoMap.get_set_self]
    · intro n hn
      rw [hc]
      simp only [clientGet]
      rw [GoMap.get_set_ne _ _ _ _ hn]
  | some existing =>
    obtain ⟨md, hmd, hmdn⟩ := hw existing hg
    have hg' : GoMap.get store c.Name = some existing := hg
    have hmerge := mergeInto_eq existing u md c hmd humd
    have hmn : GoMap.get (GoMap.set md "labels" (.strMap c.Labels)) "name"
        = some (.str c.Name) := by
      rw [GoMap.get_set_ne _ _ _ _ (by decide)]
      exact hmdn
    have hn : NestedString (GoMap.set
        (GoMap.set existing "spec" (index u "spec")) "metadata"
        (.map (GoMap.set md "labels" (.strMap c.Labels)))) ["metadata", "name"] = c.Name :=
      nestedString_name _ _ c.Name (GoMap.get_set_self _ _ _) hmn
    have hc : Create a store c = (GoMap.set store c.Name (GoMap.set
        (GoMap.set existing "spec" (index u "spec")) "metadata"
        (.map (GoMap.set md "labels" (.strMap c.Labels)))), .ok ()) := by
      simp [Create, hu, hg, hmerge, clientUpdate, hn, hg']
    refine ⟨u, GoMap.set (GoMap.set existing "spec" (index u "spec")) "metadata"
        (.map (GoMap.set md "labels" (.strMap c.Labels))),
      GoMap.set md "labels" (.strMap c.Labels), hu, by rw [hc], ?_, ?_,
      GoMap.get_set_self _ _ _, hmn, by simp [index, GoMap.get_set_self], ?_⟩
    · rw [hc]
      simp [clientGet, GoMap.get_set_self]
    · simp [index, GoMap.get_set_ne _ _ _ _ (show "spec" ≠ "metadata" by decide),
        GoMap.get_set_self]
    · intro n hn'
      rw [hc]
      simp only [clientGet]
      rw [GoMap.get_set_ne _ _ _ _ hn']

/-- Two `Create` calls for entities of one name and no SpecPatch both succeed, the
second through the update branch, and leave under the name one object with the
spec and labels of the second entity's encoding. -/
theorem create_twice (a : compatibleEngineAdapter)
    (store : List (String × List (String × Value))) (c1 c2 : CompatibleEngine)
    (hn : c1.Name = c2.Name) (hp1 : c1.SpecPatch = []) (hp2 : c2.SpecPatch = [])
    (hw : ∀ existing, clientGet store c1.Name = some existing →
      ∃ md, GoMap.get existing "metadata" = some (.map md) ∧
        GoMap.get md "name" = some (.str c1.Name)) :
    (Create a store c1).2 = .ok () ∧
    (Create a (Create a store c1).1 c2).2 = .ok () ∧
    (clientGet (Create a store c1).1 c2.Name).isSome ∧
    ∃ u2 obj md', toUnstructured a.gvr.GroupVersion c2 = .ok u2 ∧
      clientGet (Create a (Create a store c1).1 c2).1 c2.Name = some obj ∧
      index obj "spec" = index u2 "spec" ∧
      GoMap.get obj "metadata" = some (.map md') ∧
      index md' "labels" = .strMap c2.Labels ∧
      (GoMap.keys (Create a (Create a store c1).1 c2).1).count c2.Name = 1 := by
  obtain ⟨u1, obj1, md1, _, hok1, hget1, _, hmd1, hname1, _, _⟩ := create_step a store c1 hp1 hw
  have hw2 : ∀ existing, clientGet (Create a store c1).1 c2.Name = some existing →
      ∃ md, GoMap.get existing "metadata" = some (.map md) ∧
        GoMap.get md "name" = some (.str c2.Name) := by
    intro existing he
    rw [← hn, hget1] at he
    have := Option.some.inj he
    subst this
    exact ⟨md1, hmd1, by rw [← hn]; exact hname1⟩
  obtain ⟨u2, obj2, md2, hu2, hok2, hget2, hspec2, hmd2, _, hl2, _⟩ :=
    create_step a (Create a store c1).1 c2 hp2 hw2
  refine ⟨hok1, hok2, by rw [← hn, hget1]; rfl, u2, obj2, md2, hu2, hget2, hspec2, hmd2, hl2, ?_⟩
  apply List.count_eq_one_of_mem (GoMap.nodup_keys _)
  rw [GoMap.mem_keys]
  have : GoMap.get (Create a (Create a store c1).1 c2).1 c2.Name = some obj2 := hget2
  simp [this]

/-- C11, at a failing input and at a passing one: `Create` of the Deployment with
the SpecPatch {replicas: 5} panics in the encoding, on the empty store and on a
store that holds the object, and leaves the store as it was; without a SpecPatch
two creates of the name web both succeed and leave one object with the spec and
labels of the second entity. -/
theorem create_panics_on_specPatch :
    Create deploymentAdapter [] patchedDeployment = ([], .panicked) ∧
    Create deploymentAdapter storeWeb patchedDeployment = (storeWeb, .panicked) ∧
    (Create deploymentAdapter [] plainDeployment).2 = .ok () ∧
    (Create deploymentAdapter (Create deploymentAdapter [] plainDeployment).1
      scaledDeployment).2 = .ok () ∧
    (∃ obj, clientGet (Create deploymentAdapter (Create deploymentAdapter [] plainDeployment).1
        scaledDeployment).1 "web" = some obj ∧
      NestedFieldNoCopy (.map obj) ["spec", "replicas"] = some (.int32 5) ∧
      NestedFieldNoCopy (.map obj) ["metadata", "labels"]
        = some (.strMap [("app", "web"), ("tier", "front")])) :=
  ⟨rfl, rfl, rfl, rfl, ⟨_, rfl, rfl, rfl⟩⟩

/-! ## The kind an adapter submits -/

/-- C20, at a failing input: for the adapter pinned to Deployment and the entity web
whose Kind is empty, `Create` on the empty store submits an object with the kind
header "" and no spec, and `Update` on the store holding web succeeds and leaves
web with a nil spec in place of the spec it had. -/
theorem update_kindless_drops_spec :
    deploymentAdapter.kind = "Deployment" ∧
    (Create deploymentAdapter [] kindlessEntity).2 = .ok () ∧
    (∃ obj, clientGet (Create deploymentAdapter [] kindlessEntity).1 "web" = some obj ∧
      GoMap.get obj "kind" = some (.str "") ∧ GoMap.get obj "spec" = none) ∧
    GoMap.get storedWeb "spec" = some (.map [("replicas", .int64 1)]) ∧
    (Update deploymentAdapter storeWeb kindlessEntity).2 = .ok () ∧
    (∃ obj, clientGet (Update deploymentAdapter storeWeb kindlessEntity).1 "web" = some obj ∧
      GoMap.get obj "spec" = some .null ∧ index obj "spec" = .null) :=
  ⟨rfl, rfl, ⟨_, rfl, rfl, rfl⟩, rfl, rfl, ⟨_, rfl, rfl, rfl⟩⟩

end Adapter
